import Mathlib

/-!
# Verification of the repository-maturity audit engine

A shallow embedding of the audit engine (filesystem scanner, signal
detectors, context builder, dimension scorers, maturity resolver, and the
init/automation-pack scaffolding) together with proofs of the stated
properties.

The filesystem is modelled as an immutable tree of named entries; every
file and directory carries a `readable` flag so that read failures
(permission errors) are representable.  `readFileSync` is modelled as an
`Except`-valued operation (an exception in the source), `existsSync` as a
path lookup, and the single impure collaborator `JSON.parse` is modelled
by an executable recursive-descent parser `jsonParse` covering the JSON
constructs that package manifests use (objects, arrays, strings, integers,
booleans, null); a parse failure is `none`, matching the `try`/`catch`
degradation in the source.
-/

namespace Reins

/-- A node of the filesystem tree: a file with content or a directory with
named children.  `readable = false` models a permission failure on read. -/
inductive FsNode where
  | file (readable : Bool) (content : String)
  | dir (readable : Bool) (entries : List (String × FsNode))
deriving Repr

/-- Split a character list at every occurrence of `sep`
(`String.prototype.split` on a one-character separator: an empty input
yields one empty piece, and separators at the edges yield empty pieces). -/
def splitChar (sep : Char) : List Char → List (List Char)
  | [] => [[]]
  | c :: rest =>
    let r := splitChar sep rest
    if c = sep then [] :: r
    else
      match r with
      | h :: t => (c :: h) :: t
      | [] => [[c]]

/-- Model of `s.split(sep)` for a one-character separator. -/
def strSplit (s : String) (sep : Char) : List String :=
  (splitChar sep s.data).map String.mk

/-- Number of lines as the source computes it:
`content.split("\n").length`. -/
def splitLines (s : String) : Nat := (strSplit s '\n').length

/-- Case folding (`String.prototype.toLowerCase` on the ASCII range the
keyword patterns use). -/
def strLower (s : String) : String := String.mk (s.data.map Char.toLower)

/-- Is `pat` a contiguous substring of `s` (`String.prototype.includes`)? -/
def listContainsSub (pat : List Char) : List Char → Bool
  | [] => pat.isEmpty
  | c :: rest => pat.isPrefixOf (c :: rest) || listContainsSub pat rest

/-- Model of `s.includes(pat)`. -/
def strContainsSub (s pat : String) : Bool := listContainsSub pat.data s.data

/-- Case-insensitive substring test: the meaning of the
`/…|…/i.test(content)` regexes whose alternatives are plain literals. -/
def testCI (s : String) (pats : List String) : Bool :=
  pats.any (fun p => strContainsSub (strLower s) p)

/-- Model of `s.startsWith(p)`. -/
def strStarts (s p : String) : Bool := p.data.isPrefixOf s.data

/-- Model of `s.endsWith(p)`. -/
def strEnds (s p : String) : Bool := p.data.isSuffixOf s.data

/-- Split a path string into its non-empty `/`-separated segments. -/
def pathSegs (p : String) : List String :=
  (strSplit p '/').filter (fun s => s ≠ "")

/-- Model of `node:path.join` restricted to the forward-slash form used throughout
the source. -/
def pjoin (a b : String) : String := a ++ "/" ++ b

/-- Resolve a segment list inside a tree. -/
def lookupSegs : List String → FsNode → Option FsNode
  | [], n => some n
  | _ :: _, .file _ _ => none
  | s :: rest, .dir _ entries =>
    match entries.lookup s with
    | some child => lookupSegs rest child
    | none => none

/-- Resolve a path string inside a tree. -/
def lookupPath (fs : FsNode) (p : String) : Option FsNode :=
  lookupSegs (pathSegs p) fs

/-- Model of `existsSync`. -/
def existsSync (fs : FsNode) (p : String) : Bool :=
  (lookupPath fs p).isSome

/-- Model of `readFileSync`: throws (`Except.error`) on a missing path, an
unreadable file, or a directory. -/
def readFileSyncE (fs : FsNode) (p : String) : Except String String :=
  match lookupPath fs p with
  | some (.file true c) => .ok c
  | some (.file false _) => .error ("EACCES: " ++ p)
  | some (.dir _ _) => .error ("EISDIR: " ++ p)
  | none => .error ("ENOENT: " ++ p)

/-- Model of `readdirSync`: throws on a missing path, an unreadable directory, or a
file. -/
def readdirE (fs : FsNode) (p : String) : Except String (List String) :=
  match lookupPath fs p with
  | some (.dir true entries) => .ok (entries.map Prod.fst)
  | some (.dir false _) => .error ("EACCES: " ++ p)
  | some (.file _ _) => .error ("ENOTDIR: " ++ p)
  | none => .error ("ENOENT: " ++ p)

/-- The entries a walk can see at a node: `safeReadDir` returns `[]` when
`readdirSync` throws (unreadable directory or a file). -/
def FsNode.readEntries : FsNode → List (String × FsNode)
  | .dir true entries => entries
  | _ => []

/-- Model of `IGNORED_DIRS` from `lib/filesystem`. -/
def IGNORED_DIRS : List String :=
  ["node_modules", ".git", "dist", "build", ".next", ".expo"]

/-- Model of `collectFileMatch`: skip ignored names, recurse into directories via
the supplied `walk` callback (exactly as the source passes `walk` in), and
record a file when the depth bound and the pattern admit it. -/
def collectFileMatch (pattern : String → Bool) (maxDepth : Nat)
    (entry : String) (child : FsNode) (current : String) (depth : Nat)
    (walk : FsNode → String → Nat → List String) : List String :=
  if IGNORED_DIRS.contains entry then []
  else
    let fullPath := pjoin current entry
    match child with
    | .dir rd entries => walk (.dir rd entries) fullPath (depth + 1)
    | .file _ _ => if depth ≤ maxDepth && pattern entry then [fullPath] else []

/-- The recursive `walk` of `findFiles`: returns immediately once
`depth > maxDepth`, otherwise runs `collectFileMatch` on every entry
`safeReadDir` yields (an unreadable directory or a file yields no
entries).  The recursion is bounded by the depth guard, so it is phrased
structurally on a fuel that dominates it; the zero-fuel branch is
unreachable from `findFiles`. -/
def findFilesWalk (pattern : String → Bool) (maxDepth : Nat) :
    Nat → FsNode → String → Nat → List String
  | 0, _, _, _ => []
  | fuel + 1, node, current, depth =>
    if depth > maxDepth then []
    else
      node.readEntries.flatMap (fun ec =>
        collectFileMatch pattern maxDepth ec.1 ec.2 current depth
          (findFilesWalk pattern maxDepth fuel))

/-- Model of `findFiles(dir, pattern, maxDepth)`; the walk starts at depth 0 on the
node the directory path denotes (a missing path yields `[]` through
`safeReadDir`). -/
def findFiles (fs : FsNode) (dir : String) (pattern : String → Bool)
    (maxDepth : Nat := 3) : List String :=
  match lookupPath fs dir with
  | some node => findFilesWalk pattern maxDepth (maxDepth + 2) node dir 0
  | none => []

mutual

/-- The traversal the spec describes for `findFiles`: directories are
always recursed into regardless of the depth bound, and the bound is
applied only when a file matches.  Used to compare the two semantics. -/
def findFilesSpecWalk (pattern : String → Bool) (maxDepth : Nat) :
    FsNode → String → Nat → List String
  | node, current, depth =>
    match node with
    | .dir true entries => findFilesSpecEntries pattern maxDepth entries current depth
    | _ => []
  termination_by node _ _ => (sizeOf node, 0)

/-- Entry iteration for the spec-described traversal. -/
def findFilesSpecEntries (pattern : String → Bool) (maxDepth : Nat) :
    List (String × FsNode) → String → Nat → List String
  | [], _, _ => []
  | (entry, child) :: rest, current, depth =>
    (if IGNORED_DIRS.contains entry then []
     else
       match child with
       | .dir rd entries =>
         findFilesSpecWalk pattern maxDepth (.dir rd entries) (pjoin current entry) (depth + 1)
       | .file _ _ =>
         if depth ≤ maxDepth && pattern entry then [pjoin current entry] else [])
      ++ findFilesSpecEntries pattern maxDepth rest current depth
  termination_by l _ _ => (sizeOf l, 1)

end

/-- The spec-described `findFiles` (unbounded traversal, bounded match). -/
def findFilesSpec (fs : FsNode) (dir : String) (pattern : String → Bool)
    (maxDepth : Nat := 3) : List String :=
  match lookupPath fs dir with
  | some node => findFilesSpecWalk pattern maxDepth node dir 0
  | none => []

/-- Instrumentation of the real walk: the list of directory paths on which
the walk actually performs its `safeReadDir` (the walked directories).
Mirrors `findFilesWalk` step for step. -/
def findFilesVisitedWalk (maxDepth : Nat) :
    Nat → FsNode → String → Nat → List String
  | 0, _, _, _ => []
  | fuel + 1, node, current, depth =>
    if depth > maxDepth then []
    else
      current ::
        node.readEntries.flatMap (fun ec =>
          if IGNORED_DIRS.contains ec.1 then []
          else
            match ec.2 with
            | .dir rd entries =>
              findFilesVisitedWalk maxDepth fuel (.dir rd entries) (pjoin current ec.1) (depth + 1)
            | .file _ _ => [])

/-- Directories the walk of `findFiles` reads, starting from `dir`. -/
def findFilesVisited (fs : FsNode) (dir : String) (maxDepth : Nat := 3) :
    List String :=
  match lookupPath fs dir with
  | some node => findFilesVisitedWalk maxDepth (maxDepth + 2) node dir 0
  | none => []

/-- Model of `resolveMaturityLevel` from `audit/scoring`. -/
def resolveMaturityLevel (totalScore : Int) : String :=
  if totalScore ≤ 4 then "L0: Manual"
  else if totalScore ≤ 8 then "L1: Assisted"
  else if totalScore ≤ 13 then "L2: Steered"
  else if totalScore ≤ 16 then "L3: Autonomous"
  else "L4: Self-Correcting"

/-- Model of `resolveCurrentLevelKey` from `commands/evolve`. -/
def resolveCurrentLevelKey (totalScore : Int) : String :=
  if totalScore ≤ 4 then "L0"
  else if totalScore ≤ 8 then "L1"
  else if totalScore ≤ 13 then "L2"
  else if totalScore ≤ 16 then "L3"
  else "L4"

/-- The five ordered maturity labels. -/
def maturityLabels : List String :=
  ["L0: Manual", "L1: Assisted", "L2: Steered", "L3: Autonomous", "L4: Self-Correcting"]

/-- Position of a label in the ordered label list (5 for an unknown label). -/
def maturityIndex (label : String) : Nat :=
  (maturityLabels.indexOf label)

/-! ## JSON values and `JSON.parse`

The manifest reader is an external collaborator of the engine; it is
modelled by a small JSON value type and an executable recursive-descent
parser covering the constructs package manifests use (objects, arrays,
strings with simple escapes, integers, booleans, null).  A failed parse is
`none`, which every call site treats as the `try`/`catch` degradation
path. -/

inductive Json where
  | null
  | bool (b : Bool)
  | num (n : Int)
  | str (s : String)
  | arr (elems : List Json)
  | obj (fields : List (String × Json))
deriving Repr

/-- Property access `j.k` (an absent field or a non-object is
`undefined`, modelled as `none`). -/
def jsGet : Json → String → Option Json
  | .obj fields, k => fields.lookup k
  | _, _ => none

/-- JavaScript truthiness of a defined value. -/
def jsTruthy : Json → Bool
  | .null => false
  | .bool b => b
  | .num n => n != 0
  | .str s => s ≠ ""
  | .arr _ => true
  | .obj _ => true

/-- Truthiness of a possibly-`undefined` value. -/
def jsOptTruthy : Option Json → Bool
  | none => false
  | some j => jsTruthy j

/-- JavaScript `a || b` on possibly-`undefined` values. -/
def jsOr (a b : Option Json) : Option Json :=
  if jsOptTruthy a then a else b

/-- Model of `Object.keys(x).length` for a defined value (a string enumerates its
characters, an array its indices; other primitives have no keys). -/
def jsKeysCount : Json → Nat
  | .obj fields => fields.length
  | .arr elems => elems.length
  | .str s => s.data.length
  | _ => 0

/-- JSON whitespace. -/
def jsonWsChar (c : Char) : Bool :=
  c = ' ' || c = '\t' || c = '\n' || c = '\r'

/-- Drop leading JSON whitespace. -/
def skipWs (cs : List Char) : List Char := cs.dropWhile jsonWsChar

/-- Parse the body of a JSON string after its opening quote; returns the
decoded characters and the input after the closing quote. -/
def parseStringBody : List Char → Option (List Char × List Char)
  | [] => none
  | '"' :: rest => some ([], rest)
  | '\\' :: [] => none
  | '\\' :: e :: rest =>
    let d := if e = 'n' then '\n' else if e = 't' then '\t' else if e = 'r' then '\r' else e
    (parseStringBody rest).map (fun sr => (d :: sr.1, sr.2))
  | c :: rest => (parseStringBody rest).map (fun sr => (c :: sr.1, sr.2))

/-- Decimal digit run → value. -/
def digitsToNat (ds : List Char) : Nat :=
  ds.foldl (fun acc c => acc * 10 + (c.toNat - 48)) 0

/-- Parse a nonempty digit run. -/
def parseNatNum (cs : List Char) : Option (Nat × List Char) :=
  let ds := cs.takeWhile Char.isDigit
  if ds.isEmpty then none else some (digitsToNat ds, cs.drop ds.length)

/-- The parser jobs: a value, the members of an object after `{`, or the
elements of an array after `[` (with the fields/elements parsed so far). -/
inductive ParseJob where
  | val (cs : List Char)
  | objItems (cs : List Char) (acc : List (String × Json))
  | arrItems (cs : List Char) (acc : List Json)

/-- Fuelled recursive-descent JSON parser (the fuel dominates the
recursion depth; `jsonParse` supplies enough for any input). -/
def parseF : Nat → ParseJob → Option (Json × List Char)
  | 0, _ => none
  | fuel + 1, .val cs =>
    match skipWs cs with
    | [] => none
    | '"' :: rest => (parseStringBody rest).map (fun sr => (.str (String.mk sr.1), sr.2))
    | '{' :: rest =>
      (match skipWs rest with
       | '}' :: rest2 => some (.obj [], rest2)
       | rest2 => parseF fuel (.objItems rest2 []))
    | '[' :: rest =>
      (match skipWs rest with
       | ']' :: rest2 => some (.arr [], rest2)
       | rest2 => parseF fuel (.arrItems rest2 []))
    | 't' :: 'r' :: 'u' :: 'e' :: rest => some (.bool true, rest)
    | 'f' :: 'a' :: 'l' :: 's' :: 'e' :: rest => some (.bool false, rest)
    | 'n' :: 'u' :: 'l' :: 'l' :: rest => some (.null, rest)
    | '-' :: rest => (parseNatNum rest).map (fun nr => (.num (-(nr.1 : Int)), nr.2))
    | c :: rest =>
      if c.isDigit then (parseNatNum (c :: rest)).map (fun nr => (.num (nr.1 : Int), nr.2))
      else none
  | fuel + 1, .objItems cs acc =>
    (match skipWs cs with
     | '"' :: rest =>
       match parseStringBody rest with
       | none => none
       | some (key, rest2) =>
         match skipWs rest2 with
         | ':' :: rest3 =>
           (match parseF fuel (.val rest3) with
            | none => none
            | some (v, rest4) =>
              match skipWs rest4 with
              | ',' :: rest5 => parseF fuel (.objItems rest5 (acc ++ [(String.mk key, v)]))
              | '}' :: rest5 => some (.obj (acc ++ [(String.mk key, v)]), rest5)
              | _ => none)
         | _ => none
     | _ => none)
  | fuel + 1, .arrItems cs acc =>
    (match parseF fuel (.val cs) with
     | none => none
     | some (v, rest) =>
       match skipWs rest with
       | ',' :: rest2 => parseF fuel (.arrItems rest2 (acc ++ [v]))
       | ']' :: rest2 => some (.arr (acc ++ [v]), rest2)
       | _ => none)

/-- Model of `JSON.parse` (restricted to manifest JSON); requires the whole input
to be consumed. -/
def jsonParse (s : String) : Option Json :=
  match parseF (2 * s.data.length + 8) (.val s.data) with
  | some (v, rest) => if (skipWs rest).isEmpty then some v else none
  | none => none

/-! ## The keyword regexes

The enforcement-gate and diagnosability regexes use word boundaries,
`\s+`/`\s*` gaps and one optional character; they are modelled by an
executable matcher over exactly those constructs. -/

/-- One piece of a regex alternative. -/
inductive RxTok where
  | lit (s : String)
  | wsPlus
  | wsStar
  | optChar (c : Char)

/-- All remainders after matching a token sequence at the head of `cs`. -/
def matchToks : List RxTok → List Char → List (List Char)
  | [], cs => [cs]
  | .lit s :: rest, cs =>
    if s.data.isPrefixOf cs then matchToks rest (cs.drop s.data.length) else []
  | .wsPlus :: rest, cs =>
    let n := (cs.takeWhile Char.isWhitespace).length
    (List.range n).flatMap (fun i => matchToks rest (cs.drop (i + 1)))
  | .wsStar :: rest, cs =>
    let n := (cs.takeWhile Char.isWhitespace).length
    (List.range (n + 1)).flatMap (fun i => matchToks rest (cs.drop i))
  | .optChar c :: rest, cs =>
    matchToks rest cs ++
      (match cs with
       | d :: cs2 => if d = c then matchToks rest cs2 else []
       | [] => [])

/-- JavaScript `\w`. -/
def isWordChar (c : Char) : Bool := c.isAlphanum || c = '_'

/-- Is position `i` of `cs` preceded/followed by a word character? -/
def wordAt (cs : List Char) (i : Nat) : Bool := isWordChar (cs.getD i ' ')

/-- JavaScript `\b` at position `i` (between indices `i-1` and `i`). -/
def boundaryAt (cs : List Char) (i : Nat) : Bool :=
  (if i = 0 then false else wordAt cs (i - 1)) != wordAt cs i

/-- Model of `/\b(alt|…)\b/.test(s)`: some alternative matches at some position
with word boundaries on both sides. -/
def wbTest (alts : List (List RxTok)) (s : String) : Bool :=
  let cs := s.data
  (List.range (cs.length + 1)).any (fun i =>
    boundaryAt cs i &&
    alts.any (fun alt =>
      (matchToks alt (cs.drop i)).any (fun rem =>
        boundaryAt cs (cs.length - rem.length))))

/-- Model of `/tok…/.test(s)` without boundaries: the sequence matches somewhere. -/
def rxSearch (toks : List RxTok) (s : String) : Bool :=
  let cs := s.data
  (List.range (cs.length + 1)).any (fun i => !(matchToks toks (cs.drop i)).isEmpty)

/-- Model of `/a.*b/` on one string (no newline may stand in the gap). -/
def gapTest (a b : String) (s : String) : Bool :=
  let cs := s.data
  (List.range (cs.length + 1)).any (fun i =>
    a.data.isPrefixOf (cs.drop i) &&
    (let rest := cs.drop (i + a.data.length)
     (List.range (rest.length + 1)).any (fun k =>
       ((rest.take k).all (fun c => c ≠ '\n')) && b.data.isPrefixOf (rest.drop k))))

/-- A single-quote character, kept out of string literals. -/
def sq : String := String.mk ['\x27']

/-! ## Signal detectors (`lib/detection`) -/

/-- The enforcement-gate keyword patterns of
`scanWorkflowsForEnforcement`, in declaration order. -/
def keywordPatterns : List (String × List (List RxTok)) :=
  [("lint", [[.lit "lint"], [.lit "eslint"], [.lit "biome", .wsPlus, .lit "check"]]),
   ("test", [[.lit "test"], [.lit "vitest"], [.lit "jest"]]),
   ("typecheck", [[.lit "typecheck"], [.lit "type-check"],
                  [.lit "tsc", .wsPlus, .lit "--no", .optChar '-', .lit "emit"]]),
   ("build", [[.lit "build"]]),
   ("audit", [[.lit "audit"]]),
   ("prettier", [[.lit "prettier"]]),
   ("format", [[.lit "format"]])]

/-- Model of `Set.add` preserving JavaScript insertion order. -/
def addStep (steps : List String) (s : String) : List String :=
  if steps.contains s then steps else steps ++ [s]

/-- Record every keyword whose pattern matches the (lowercased) content of
one workflow file. -/
def scanFileSteps (steps : List String) (content : String) : List String :=
  keywordPatterns.foldl
    (fun acc kp => if wbTest kp.2 (strLower content) then addStep acc kp.1 else acc)
    steps

/-- The per-file loop of `scanWorkflowsForEnforcement`; a read failure
raises out of the loop and the surrounding `catch` keeps the steps
collected so far. -/
def scanWorkflowsLoop (fs : FsNode) (workflowDir : String) :
    List String → List String → List String
  | [], steps => steps
  | f :: rest, steps =>
    match readFileSyncE fs (pjoin workflowDir f) with
    | .error _ => steps
    | .ok content => scanWorkflowsLoop fs workflowDir rest (scanFileSteps steps content)

/-- Model of `scanWorkflowsForEnforcement`: de-duplicated gate keywords found in
the `.yml`/`.yaml` files of the workflow directory. -/
def scanWorkflowsForEnforcement (fs : FsNode) (workflowDir : String) : List String :=
  match readdirE fs workflowDir with
  | .error _ => []
  | .ok names =>
    scanWorkflowsLoop fs workflowDir
      (names.filter (fun f => strEnds f ".yml" || strEnds f ".yaml")) []

/-- Keep the string elements of a parsed `workspaces` array (its TS type
is `string[]`). -/
def stringElems (xs : List Json) : List String :=
  xs.filterMap (fun j => match j with | .str s => some s | _ => none)

/-- Model of `detectMonorepoWorkspaces`: the workspace glob list of the root
manifest (bare array or nested `packages` field); parse or read failures
degrade to `[]`. -/
def detectMonorepoWorkspaces (fs : FsNode) (pkgJsonPath : String) : List String :=
  match readFileSyncE fs pkgJsonPath with
  | .error _ => []
  | .ok content =>
    match jsonParse content with
    | none => []
    | some pkg =>
      let workspaces :=
        jsOr ((jsGet pkg "workspaces").bind (fun w => jsGet w "packages")) (jsGet pkg "workspaces")
      match workspaces with
      | some (.arr xs) => stringElems xs
      | _ => []

/-- Model of `/(^|[-_])cli($|[-_])/.test(name)`. -/
def cliNameTest (name : String) : Bool :=
  let cs := name.data
  (List.range (cs.length + 1)).any (fun i =>
    (decide (i = 0) || cs.getD (i - 1) ' ' = '-' || cs.getD (i - 1) ' ' = '_') &&
    "cli".data.isPrefixOf (cs.drop i) &&
    (decide (i + 3 = cs.length) || cs.getD (i + 3) ' ' = '-' || cs.getD (i + 3) ' ' = '_'))

/-- Model of `isCliPackage`: a binary map, a `cli`-token name, or cli keywords.
(`typeof x === "object"` admits arrays, whose keys are their indices.) -/
def isCliPackage (pkg : Json) : Bool :=
  let hasBin :=
    match jsGet pkg "bin" with
    | some (.str _) => true
    | some (.obj fields) => !fields.isEmpty
    | some (.arr xs) => !xs.isEmpty
    | _ => false
  let hasCliName :=
    match jsGet pkg "name" with
    | some (.str name) => cliNameTest name
    | _ => false
  let hasCliKeywords :=
    match jsGet pkg "keywords" with
    | some (.arr ks) =>
      ks.any (fun k =>
        match k with
        | .str s => testCI s ["cli", "command-line", "commandline", "terminal"]
        | _ => false)
    | _ => false
  hasBin || hasCliName || hasCliKeywords

/-- Model of `detectCliProject`: the root manifest, else any non-root manifest
within depth 4 outside `node_modules`; read or parse failures on a
manifest skip it. -/
def detectCliProject (fs : FsNode) (targetDir : String) (rootPkgJsonPath : String) : Bool :=
  let rootHit :=
    if existsSync fs rootPkgJsonPath then
      match readFileSyncE fs rootPkgJsonPath with
      | .error _ => false
      | .ok content =>
        match jsonParse content with
        | none => false
        | some pkg => isCliPackage pkg
    else false
  if rootHit then true
  else
    let pkgJsonFiles :=
      (findFiles fs targetDir (fun e => e == "package.json") 4).filter
        (fun f => f ≠ rootPkgJsonPath && !strContainsSub f "node_modules")
    pkgJsonFiles.any (fun pkgPath =>
      match readFileSyncE fs pkgPath with
      | .error _ => false
      | .ok content =>
        match jsonParse content with
        | none => false
        | some pkg => isCliPackage pkg)

/-- Model of `detectReadmeSignals`: `/\bdoctor\b|\bhealth check\b/i` over
`README.md`. -/
def detectReadmeSignals (fs : FsNode) (targetDir : String) : List String :=
  let readmePath := pjoin targetDir "README.md"
  if !existsSync fs readmePath then []
  else
    match readFileSyncE fs readmePath with
    | .error _ => []
    | .ok readmeContent =>
      if wbTest [[.lit "doctor"], [.lit "health check"]] (strLower readmeContent)
      then ["doctor docs"] else []

/-- Loop of `detectWorkflowSignals`; a read failure makes the whole probe
return `[]`. -/
def detectWorkflowSignalsLoop (fs : FsNode) (workflowDir : String) :
    List String → List String
  | [] => []
  | f :: rest =>
    match readFileSyncE fs (pjoin workflowDir f) with
    | .error _ => []
    | .ok workflowContent =>
      if wbTest [[.lit "audit"], [.lit "doctor"]] (strLower workflowContent)
      then ["ci diagnostic checks"]
      else detectWorkflowSignalsLoop fs workflowDir rest

/-- Model of `detectWorkflowSignals`: `/\baudit\b|\bdoctor\b/i` over workflow
files. -/
def detectWorkflowSignals (fs : FsNode) (targetDir : String) : List String :=
  let workflowDir := pjoin (pjoin targetDir ".github") "workflows"
  if !existsSync fs workflowDir then []
  else
    match readdirE fs workflowDir with
    | .error _ => []
    | .ok names =>
      detectWorkflowSignalsLoop fs workflowDir
        (names.filter (fun f => strEnds f ".yml" || strEnds f ".yaml"))

/-- The diagnostic-surface test of `detectSourceSignals`:
`/function\s+doctor\s*\(|--help|Unknown command|printHelp/i`. -/
def sourceSignalTest (sourceContent : String) : Bool :=
  rxSearch [.lit "function", .wsPlus, .lit "doctor", .wsStar, .lit "("] (strLower sourceContent)
    || testCI sourceContent ["--help", "unknown command", "printhelp"]

/-- Entry-file names `/^index\.(ts|js|mjs|cjs)$/`. -/
def indexFilePat (e : String) : Bool :=
  ["index.ts", "index.js", "index.mjs", "index.cjs"].contains e

/-- Model of `detectSourceSignals`: per-file read failures skip the file. -/
def detectSourceSignals (fs : FsNode) (targetDir : String) : List String :=
  let sourceFiles :=
    (findFiles fs targetDir indexFilePat 5).filter (fun f => !strContainsSub f "node_modules")
  if sourceFiles.any (fun file =>
      match readFileSyncE fs file with
      | .error _ => false
      | .ok sourceContent => sourceSignalTest sourceContent)
  then ["cli diagnostic command surface"] else []

/-- Test-file names `/\.(test|spec)\.(ts|js|mjs|cjs)$/`. -/
def testFilePat (e : String) : Bool :=
  [".test.ts", ".test.js", ".test.mjs", ".test.cjs",
   ".spec.ts", ".spec.js", ".spec.mjs", ".spec.cjs"].any (fun suf => strEnds e suf)

/-- Model of `detectTestSignals`: the case-insensitive `--help`, `Unknown command`
or `doctor` literals over test files; per-file read failures skip the
file. -/
def detectTestSignals (fs : FsNode) (targetDir : String) : List String :=
  let testFiles :=
    (findFiles fs targetDir testFilePat 5).filter (fun f => !strContainsSub f "node_modules")
  if testFiles.any (fun file =>
      match readFileSyncE fs file with
      | .error _ => false
      | .ok testContent => testCI testContent ["--help", "unknown command", "doctor"])
  then ["cli diagnostic tests"] else []

/-- Model of `detectCliDiagnosabilitySignals`: the set union (insertion order) of
the four probes. -/
def detectCliDiagnosabilitySignals (fs : FsNode) (targetDir : String) : List String :=
  let probes :=
    [detectReadmeSignals fs targetDir,
     detectWorkflowSignals fs targetDir,
     detectSourceSignals fs targetDir,
     detectTestSignals fs targetDir]
  probes.foldl (fun acc probeSignals => probeSignals.foldl addStep acc) []

/-! ## Audit context (`audit/context`) -/

/-- Model of `readVerifiedDocs`: markdown files whose content carries the
machine-readable verification marker; unreadable files are filtered
away. -/
def readVerifiedDocs (fs : FsNode) (targetDir : String) : List String :=
  let allDocFiles := findFiles fs targetDir (fun e => strEnds e ".md" || strEnds e ".markdown") 3
  allDocFiles.filter (fun file =>
    match readFileSyncE fs file with
    | .error _ => false
    | .ok c => strContainsSub c "<!-- Verified:")

/-- Model of `AuditRuntimeContext`: the immutable per-run snapshot. -/
structure AuditRuntimeContext where
  targetDir : String
  pkgJsonPath : String
  docsDir : String
  execPlansDir : String
  archMdPath : String
  workflowDir : String
  goldenPath : String
  hasRiskPolicy : Bool
  hasEslint : Bool
  hasBiome : Bool
  hasStructuralLintScript : Bool
  ciEnforcementSteps : List String
  monorepoWorkspaces : List String
  isMonorepo : Bool
  isCliRepo : Bool
  verifiedDocs : List String
  hasCleanupDocs : Bool
deriving Repr, DecidableEq

/-- Script names matching `/lint|structure/i`. -/
def structuralScriptPat (e : String) : Bool := testCI e ["lint", "structure"]

/-- Model of `buildAuditRuntimeContext`. -/
def buildAuditRuntimeContext (fs : FsNode) (targetDir : String) : AuditRuntimeContext :=
  let pkgJsonPath := pjoin targetDir "package.json"
  let docsDir := pjoin targetDir "docs"
  let workflowDir := pjoin (pjoin targetDir ".github") "workflows"
  let archMdPath := pjoin targetDir "ARCHITECTURE.md"
  let goldenPath := pjoin (pjoin targetDir "docs") "golden-principles.md"
  let execPlansDir := pjoin (pjoin targetDir "docs") "exec-plans"
  let hasRiskPolicy := existsSync fs (pjoin targetDir "risk-policy.json")
  let hasEslint :=
    existsSync fs (pjoin targetDir ".eslintrc.json") ||
    existsSync fs (pjoin targetDir ".eslintrc.js") ||
    existsSync fs (pjoin targetDir "eslint.config.js") ||
    existsSync fs (pjoin targetDir "eslint.config.mjs")
  let hasBiome := existsSync fs (pjoin targetDir "biome.json")
  let structuralLintScripts :=
    if existsSync fs (pjoin targetDir "scripts") then
      findFiles fs (pjoin targetDir "scripts") structuralScriptPat 1
    else []
  let hasStructuralLintScript := !structuralLintScripts.isEmpty
  let ciEnforcementSteps :=
    if existsSync fs workflowDir then scanWorkflowsForEnforcement fs workflowDir else []
  let monorepoWorkspaces :=
    if existsSync fs pkgJsonPath then detectMonorepoWorkspaces fs pkgJsonPath else []
  let isMonorepo := !monorepoWorkspaces.isEmpty
  let isCliRepo := detectCliProject fs targetDir pkgJsonPath
  let verifiedDocs := readVerifiedDocs fs targetDir
  let hasCleanupDocs :=
    existsSync fs (pjoin (pjoin (pjoin targetDir "docs") "exec-plans") "tech-debt-tracker.md")
  { targetDir := targetDir
    pkgJsonPath := pkgJsonPath
    docsDir := docsDir
    execPlansDir := execPlansDir
    archMdPath := archMdPath
    workflowDir := workflowDir
    goldenPath := goldenPath
    hasRiskPolicy := hasRiskPolicy
    hasEslint := hasEslint
    hasBiome := hasBiome
    hasStructuralLintScript := hasStructuralLintScript
    ciEnforcementSteps := ciEnforcementSteps
    monorepoWorkspaces := monorepoWorkspaces
    isMonorepo := isMonorepo
    isCliRepo := isCliRepo
    verifiedDocs := verifiedDocs
    hasCleanupDocs := hasCleanupDocs }

/-! ## Audit result model (`lib/types`) -/

/-- One dimension accumulator: score, fixed max, ordered findings.  The
score is an `Int` so that "never negative" is a real statement. -/
structure AuditScore where
  score : Int
  max : Int
  findings : List String
deriving Repr, DecidableEq

/-- The six named dimensions, in declaration (= output) order. -/
structure AuditScores where
  repository_knowledge : AuditScore
  architecture_enforcement : AuditScore
  agent_legibility : AuditScore
  golden_principles : AuditScore
  agent_workflow : AuditScore
  garbage_collection : AuditScore
deriving Repr, DecidableEq

/-- The audit output record. -/
structure AuditResult where
  project : String
  timestamp : String
  scores : AuditScores
  total_score : Int
  max_score : Int
  maturity_level : String
  recommendations : List String
deriving Repr, DecidableEq

/-- Model of `score++`. -/
def AuditScore.addPoint (s : AuditScore) : AuditScore :=
  { s with score := s.score + 1 }

/-- Model of `findings.push(f)`. -/
def AuditScore.addFinding (s : AuditScore) (f : String) : AuditScore :=
  { s with findings := s.findings ++ [f] }

/-- Update the repository-knowledge dimension in place. -/
def AuditResult.updRK (r : AuditResult) (f : AuditScore → AuditScore) : AuditResult :=
  { r with scores := { r.scores with repository_knowledge := f r.scores.repository_knowledge } }

/-- Update the architecture-enforcement dimension in place. -/
def AuditResult.updAE (r : AuditResult) (f : AuditScore → AuditScore) : AuditResult :=
  { r with scores := { r.scores with architecture_enforcement := f r.scores.architecture_enforcement } }

/-- Update the agent-legibility dimension in place. -/
def AuditResult.updAL (r : AuditResult) (f : AuditScore → AuditScore) : AuditResult :=
  { r with scores := { r.scores with agent_legibility := f r.scores.agent_legibility } }

/-- Update the golden-principles dimension in place. -/
def AuditResult.updGP (r : AuditResult) (f : AuditScore → AuditScore) : AuditResult :=
  { r with scores := { r.scores with golden_principles := f r.scores.golden_principles } }

/-- Update the agent-workflow dimension in place. -/
def AuditResult.updAW (r : AuditResult) (f : AuditScore → AuditScore) : AuditResult :=
  { r with scores := { r.scores with agent_workflow := f r.scores.agent_workflow } }

/-- Update the garbage-collection dimension in place. -/
def AuditResult.updGC (r : AuditResult) (f : AuditScore → AuditScore) : AuditResult :=
  { r with scores := { r.scores with garbage_collection := f r.scores.garbage_collection } }

/-- Model of `recommendations.push(rec)`. -/
def AuditResult.addRec (r : AuditResult) (rec : String) : AuditResult :=
  { r with recommendations := r.recommendations ++ [rec] }

/-- Model of `createAuditResult` (the timestamp is the external clock value). -/
def createAuditResult (projectName : String) (timestamp : String) : AuditResult :=
  { project := projectName
    timestamp := timestamp
    scores :=
      { repository_knowledge := { score := 0, max := 3, findings := [] }
        architecture_enforcement := { score := 0, max := 3, findings := [] }
        agent_legibility := { score := 0, max := 3, findings := [] }
        golden_principles := { score := 0, max := 3, findings := [] }
        agent_workflow := { score := 0, max := 3, findings := [] }
        garbage_collection := { score := 0, max := 3, findings := [] } }
    total_score := 0
    max_score := 18
    maturity_level := "L0"
    recommendations := [] }

/-! ## Scoring utilities (`lib/scoring-utils`) -/

/-- Does `/^##\s+/m` match at the start of this line (`isLast` tells
whether the line end is the end of the content, where no `\s` can
follow)? -/
def headingMatchAt (isLast : Bool) (line : String) : Bool :=
  match line.data with
  | '#' :: '#' :: rest =>
    match rest with
    | [] => !isLast
    | c :: _ => c.isWhitespace
  | _ => false

/-- Does `/^\d+\.\s+/m` match at the start of this line? -/
def numberedMatchAt (isLast : Bool) (line : String) : Bool :=
  let cs := line.data
  let ds := cs.takeWhile Char.isDigit
  let rest := cs.drop ds.length
  !ds.isEmpty &&
    (match rest with
     | '.' :: [] => !isLast
     | '.' :: c :: _ => c.isWhitespace
     | _ => false)

/-- Count the lines at which a multiline line-start pattern matches. -/
def countLineMatches (p : Bool → String → Bool) (content : String) : Nat :=
  let lines := strSplit content '\n'
  let n := lines.length
  (lines.enum.filter (fun il => p (il.1 = n - 1) il.2)).length

/-- Model of `countGoldenPrinciples`: the larger of the `##`-heading count and the
numbered-item count. -/
def countGoldenPrinciples (content : String) : Nat :=
  Nat.max (countLineMatches headingMatchAt content) (countLineMatches numberedMatchAt content)

/-! ## Dimension scorers (`audit/scoring`)

Scorers that read files after a bare `existsSync` check (no `try`/`catch`
in the source) are `Except`-valued: a failing read there propagates as an
exception.  Scorers whose reads are all guarded are total functions. -/

/-- Model of `scoreRepositoryAgents`: the map-file sub-check (`≤ 150` lines scores,
longer only records a finding) plus the hierarchical-map bonus finding. -/
def scoreRepositoryAgents (fs : FsNode) (ctx : AuditRuntimeContext) (r : AuditResult) :
    Except String AuditResult :=
  let agentsMdPath := pjoin ctx.targetDir "AGENTS.md"
  let step1 : Except String AuditResult :=
    if existsSync fs agentsMdPath then
      match readFileSyncE fs agentsMdPath with
      | .error e => .error e
      | .ok content =>
        let lines := splitLines content
        if lines ≤ 150 then
          .ok (r.updRK (fun s => (s.addPoint).addFinding s!"AGENTS.md exists ({lines} lines)"))
        else
          .ok (r.updRK (fun s =>
            s.addFinding s!"AGENTS.md exists but too long ({lines} lines, target: <150)"))
    else
      .ok ((r.updRK (fun s => s.addFinding "AGENTS.md missing")).addRec
        ("Create AGENTS.md as a concise map (~100 lines) — run " ++ sq ++ "reins init ." ++ sq))
  match step1 with
  | .error e => .error e
  | .ok r1 =>
    let allAgentsMd := findFiles fs ctx.targetDir (fun e => e == "AGENTS.md") 3
    let n := allAgentsMd.length
    if allAgentsMd.length ≥ 2 then
      .ok (r1.updRK (fun s => s.addFinding s!"Hierarchical AGENTS.md detected ({n} files)"))
    else .ok r1

/-- Model of `scoreRepositoryDocs`: verified-docs bonus finding, then the
design-docs-with-index sub-check and its tabular-index bonus finding. -/
def scoreRepositoryDocs (fs : FsNode) (ctx : AuditRuntimeContext) (r : AuditResult) :
    Except String AuditResult :=
  let r :=
    if ctx.verifiedDocs.length > 0 then
      let n := ctx.verifiedDocs.length
      r.updRK (fun s => s.addFinding s!"Verification headers found in {n} doc(s)")
    else r
  if existsSync fs ctx.docsDir then
    let hasDesignDocs := existsSync fs (pjoin ctx.docsDir "design-docs")
    let hasIndex := existsSync fs (pjoin (pjoin ctx.docsDir "design-docs") "index.md")
    if hasDesignDocs && hasIndex then
      match readFileSyncE fs (pjoin (pjoin ctx.docsDir "design-docs") "index.md") with
      | .error e => .error e
      | .ok indexContent =>
        let r := r.updRK (fun s => (s.addPoint).addFinding "docs/design-docs/ with index exists")
        let tableRows := ((strSplit indexContent '\n').filter (fun line => strContainsSub line "|")).length
        let dataRows := Nat.max 0 (tableRows - 2)
        if dataRows ≥ 3 then
          .ok (r.updRK (fun s => s.addFinding s!"{dataRows} design decisions documented"))
        else .ok r
    else if hasDesignDocs then
      .ok (r.updRK (fun s => s.addFinding "docs/design-docs/ exists but missing index.md"))
    else
      .ok (r.updRK (fun s => s.addFinding "docs/design-docs/ missing"))
  else
    .ok ((r.updRK (fun s => s.addFinding "docs/ directory missing")).addRec
      ("Create docs/ directory structure — run " ++ sq ++ "reins init ." ++ sq))

/-- Model of `scoreRepositoryExecutionPlans`: the active/completed plan-dirs
sub-check. -/
def scoreRepositoryExecutionPlans (fs : FsNode) (ctx : AuditRuntimeContext) (r : AuditResult) :
    AuditResult :=
  if existsSync fs ctx.execPlansDir then
    let hasActive := existsSync fs (pjoin ctx.execPlansDir "active")
    let hasCompleted := existsSync fs (pjoin ctx.execPlansDir "completed")
    if hasActive && hasCompleted then
      r.updRK (fun s => (s.addPoint).addFinding "Execution plans versioned in-repo")
    else
      r.updRK (fun s => s.addFinding "exec-plans/ incomplete (missing active/ or completed/)")
  else
    r.updRK (fun s => s.addFinding "No versioned execution plans")

/-- Model of `scoreRepositoryKnowledge`: the three sub-scorers in order. -/
def scoreRepositoryKnowledge (fs : FsNode) (ctx : AuditRuntimeContext) (r : AuditResult) :
    Except String AuditResult :=
  match scoreRepositoryAgents fs ctx r with
  | .error e => .error e
  | .ok r =>
    match scoreRepositoryDocs fs ctx r with
    | .error e => .error e
    | .ok r => .ok (scoreRepositoryExecutionPlans fs ctx r)

/-- The linter config files probed by `hasDeepLinterEnforcement`. -/
def linterConfigs : List String :=
  [".eslintrc.json", ".eslintrc.js", "eslint.config.js", "eslint.config.mjs", "biome.json"]

/-- The biome rule-group names of the `/"(recommended|…)"/g` count. -/
def biomeRuleWords : List String :=
  ["recommended", "all", "suspicious", "correctness", "style", "complexity",
   "nursery", "performance", "security", "a11y"]

/-- Length of the first quoted rule-group match at this position (the
first alternative wins, as in the regex engine). -/
def firstBiomeRuleMatch (cs : List Char) : Option Nat :=
  biomeRuleWords.findSome? (fun w =>
    if ('"' :: (w.data ++ ['"'])).isPrefixOf cs then some (w.data.length + 2) else none)

/-- Count the non-overlapping global matches, scanning left to right (the
fuel dominates the scan length). -/
def countBiomeRulesAux : Nat → List Char → Nat
  | 0, _ => 0
  | fuel + 1, cs =>
    match cs with
    | [] => 0
    | _ :: rest =>
      match firstBiomeRuleMatch cs with
      | some len => 1 + countBiomeRulesAux fuel (cs.drop len)
      | none => countBiomeRulesAux fuel rest

/-- Model of `cfgContent.match(/"(recommended|…)"/g)?.length`. -/
def countBiomeRules (s : String) : Nat := countBiomeRulesAux s.data.length s.data

/-- Model of `hasDeepLinterEnforcement`: a structural-lint script, an
import-boundary vocabulary hit in some linter config, or a rich biome
rule set; a broken (unreadable) config is skipped. -/
def hasDeepLinterEnforcement (fs : FsNode) (ctx : AuditRuntimeContext) : Bool :=
  if ctx.hasStructuralLintScript then true
  else
    linterConfigs.any (fun cfg =>
      let cfgPath := pjoin ctx.targetDir cfg
      if !existsSync fs cfgPath then false
      else
        match readFileSyncE fs cfgPath with
        | .error _ => false
        | .ok cfgContent =>
          if testCI cfgContent
              ["no-restricted-imports", "import/no-default-export", "boundaries", "dependency"]
          then true
          else if cfg == "biome.json" then countBiomeRules cfgContent ≥ 5
          else false)

/-- Model of `scoreArchitectureEnforcement`: architecture-doc vocabulary, linter
presence, and the 2-of-4 enforcement-evidence threshold. -/
def scoreArchitectureEnforcement (fs : FsNode) (ctx : AuditRuntimeContext) (r : AuditResult) :
    Except String AuditResult :=
  let step1 : Except String AuditResult :=
    if existsSync fs ctx.archMdPath then
      match readFileSyncE fs ctx.archMdPath with
      | .error e => .error e
      | .ok archContent =>
        if testCI archContent ["dependenc", "layer", "forward only", "import"] then
          .ok (r.updAE (fun s => (s.addPoint).addFinding "ARCHITECTURE.md with dependency direction rules"))
        else
          .ok ((r.updAE (fun s =>
            s.addFinding "ARCHITECTURE.md exists but lacks dependency direction rules")).addRec
            "Document dependency direction rules in ARCHITECTURE.md")
    else
      .ok ((r.updAE (fun s => s.addFinding "ARCHITECTURE.md missing")).addRec
        "Create ARCHITECTURE.md with domain map and layer rules")
  match step1 with
  | .error e => .error e
  | .ok r =>
    let r :=
      if ctx.hasEslint || ctx.hasBiome then
        if hasDeepLinterEnforcement fs ctx then
          r.updAE (fun s => (s.addPoint).addFinding "Linter configuration found with architectural enforcement")
        else
          r.updAE (fun s => (s.addPoint).addFinding "Linter configuration found")
      else
        (r.updAE (fun s => s.addFinding "No linter configuration found")).addRec
          "Add linter configuration to enforce architectural constraints"
    let ciRefsEnforcement :=
      ctx.ciEnforcementSteps.any (fun step =>
        ["lint", "test", "typecheck", "type-check"].contains step)
    let goldenER : Except String Bool :=
      if existsSync fs ctx.goldenPath then
        match readFileSyncE fs ctx.goldenPath with
        | .error e => .error e
        | .ok goldenContent =>
          .ok (testCI goldenContent ["lint", "eslint", "biome", "enforced"] &&
            (ctx.hasEslint || ctx.hasBiome))
      else .ok false
    match goldenER with
    | .error e => .error e
    | .ok goldenEnforcementRatio =>
      let enforcementSignals :=
        ([ctx.hasRiskPolicy, ciRefsEnforcement, ctx.hasStructuralLintScript,
          goldenEnforcementRatio].filter (fun b => b)).length
      if enforcementSignals ≥ 2 then
        .ok (r.updAE (fun s =>
          (s.addPoint).addFinding s!"Enforcement evidence detected ({enforcementSignals} signals)"))
      else if enforcementSignals = 1 then
        .ok (r.updAE (fun s => s.addFinding "Partial enforcement evidence (need 2+ signals)"))
      else .ok r

/-- Model of `workspace.replace(/\*/g, "")`. -/
def stripStars (s : String) : String := String.mk (s.data.filter (fun c => c ≠ '*'))

/-- Model of `safeReadDir` on a path. -/
def safeReadDirP (fs : FsNode) (p : String) : List String :=
  match readdirE fs p with
  | .ok ns => ns
  | .error _ => []

/-- Model of `hasBootableWorkspace`: some workspace subdirectory has a manifest
with a truthy dev/start script; read and parse failures skip the
candidate. -/
def hasBootableWorkspace (fs : FsNode) (ctx : AuditRuntimeContext) : Bool :=
  ctx.monorepoWorkspaces.any (fun workspace =>
    let workspaceDir := pjoin ctx.targetDir (stripStars workspace)
    if !existsSync fs workspaceDir then false
    else
      (safeReadDirP fs workspaceDir).any (fun entry =>
        let workspacePkgPath := pjoin (pjoin workspaceDir entry) "package.json"
        if !existsSync fs workspacePkgPath then false
        else
          match readFileSyncE fs workspacePkgPath with
          | .error _ => false
          | .ok c =>
            match jsonParse c with
            | none => false
            | some workspacePkg =>
              let scripts := jsGet workspacePkg "scripts"
              jsOptTruthy (scripts.bind (fun s => jsGet s "dev")) ||
                jsOptTruthy (scripts.bind (fun s => jsGet s "start"))))

/-- Config names `/^sentry\.(client|server)\.config\./i`. -/
def sentryCfgPat (e : String) : Bool :=
  strStarts (strLower e) "sentry.client.config." || strStarts (strLower e) "sentry.server.config."

/-- Env names `/^\.env\.sentry/i`. -/
def sentryEnvPat (e : String) : Bool := strStarts (strLower e) ".env.sentry"

/-- Model of `scoreObservability`: traditional or modern observability signals,
else the CLI diagnosability threshold for CLI-classified projects. -/
def scoreObservability (fs : FsNode) (ctx : AuditRuntimeContext) (r : AuditResult) :
    AuditResult :=
  let obsFiles := ["docker-compose.yml", "docker-compose.yaml", "grafana", "prometheus.yml"]
  let hasTraditionalObs :=
    obsFiles.any (fun file =>
      existsSync fs (pjoin ctx.targetDir file) ||
        existsSync fs (pjoin (pjoin ctx.targetDir "infra") file))
  let sentryFiles := findFiles fs ctx.targetDir sentryCfgPat 1
  let hasVercelJson := existsSync fs (pjoin ctx.targetDir "vercel.json")
  let hasNetlifyToml := existsSync fs (pjoin ctx.targetDir "netlify.toml")
  let sentryDatadog : Bool × Bool :=
    if existsSync fs ctx.pkgJsonPath then
      match readFileSyncE fs ctx.pkgJsonPath with
      | .error _ => (false, false)
      | .ok pkgContent =>
        (strContainsSub pkgContent "@sentry/", strContainsSub pkgContent "datadog-ci")
    else (false, false)
  let hasSentryDep := sentryDatadog.1
  let hasDatadogDep := sentryDatadog.2
  let hasSentryEnv := (findFiles fs ctx.targetDir sentryEnvPat 1).length > 0
  let hasModernObs :=
    sentryFiles.length > 0 || hasVercelJson || hasNetlifyToml || hasSentryDep ||
      hasDatadogDep || hasSentryEnv
  if hasTraditionalObs || hasModernObs then
    r.updAL (fun s => (s.addPoint).addFinding "Observability configuration found")
  else if !ctx.isCliRepo then
    r.updAL (fun s => s.addFinding "No observability stack detected")
  else
    let cliDiagSignals := detectCliDiagnosabilitySignals fs ctx.targetDir
    if cliDiagSignals.length ≥ 2 then
      let joined := String.intercalate ", " cliDiagSignals
      r.updAL (fun s => (s.addPoint).addFinding s!"CLI diagnosability signals found ({joined})")
    else
      r.updAL (fun s => s.addFinding "No observability or CLI diagnosability signals detected")

/-- Model of `Math.round(a / b)` for natural `a` and positive `b`. -/
def mathRound (a b : Nat) : Nat := (2 * a + b) / (2 * b)

/-- Model of `scoreMonorepoDependencyFootprint`: the rounded average dependency
count over readable workspace manifests, against the fixed threshold 30;
unreadable or unparsable manifests are not counted. -/
def scoreMonorepoDependencyFootprint (fs : FsNode) (ctx : AuditRuntimeContext) (r : AuditResult) :
    AuditResult :=
  let workspacePkgFiles :=
    (findFiles fs ctx.targetDir (fun e => e == "package.json") 3).filter
      (fun file => file ≠ ctx.pkgJsonPath && !strContainsSub file "node_modules")
  if workspacePkgFiles.isEmpty then r
  else
    let counts :=
      workspacePkgFiles.foldl
        (fun (acc : Nat × Nat) workspacePkg =>
          match readFileSyncE fs workspacePkg with
          | .error _ => acc
          | .ok c =>
            match jsonParse c with
            | none => acc
            | some workspacePkgData =>
              let deps := jsKeysCount ((jsGet workspacePkgData "dependencies").getD .null)
              (acc.1 + deps, acc.2 + 1))
        (0, 0)
    let totalDeps := counts.1
    let counted := counts.2
    if counted = 0 then
      r.updAL (fun s =>
        s.addFinding "No readable workspace package.json files for dependency footprint analysis")
    else
      let avgDeps := mathRound totalDeps counted
      if avgDeps < 30 then
        r.updAL (fun s =>
          (s.addPoint).addFinding s!"Lean workspace dependencies (avg {avgDeps} across {counted} packages)")
      else
        r.updAL (fun s =>
          s.addFinding s!"Heavy workspace dependencies (avg {avgDeps} across {counted} packages) — consider trimming")

/-- Model of `scoreDependencyFootprint`: monorepos use the per-workspace average,
single packages the absolute threshold 20; the surrounding `try` turns a
failed root read or parse into no change. -/
def scoreDependencyFootprint (fs : FsNode) (ctx : AuditRuntimeContext) (r : AuditResult) :
    AuditResult :=
  if !existsSync fs ctx.pkgJsonPath then r
  else if ctx.isMonorepo then scoreMonorepoDependencyFootprint fs ctx r
  else
    match readFileSyncE fs ctx.pkgJsonPath with
    | .error _ => r
    | .ok c =>
      match jsonParse c with
      | none => r
      | some pkg =>
        let depCount := jsKeysCount ((jsGet pkg "dependencies").getD .null)
        if depCount < 20 then
          r.updAL (fun s => (s.addPoint).addFinding s!"Lean dependency set ({depCount} dependencies)")
        else
          r.updAL (fun s =>
            s.addFinding s!"Heavy dependency set ({depCount} dependencies) — consider trimming")

/-- Model of `scoreAgentLegibility`: bootable root or workspace (failures in the
guarded manifest read degrade to no finding), then observability, then the
dependency footprint. -/
def scoreAgentLegibility (fs : FsNode) (ctx : AuditRuntimeContext) (r : AuditResult) :
    AuditResult :=
  let r :=
    if existsSync fs ctx.pkgJsonPath then
      match readFileSyncE fs ctx.pkgJsonPath with
      | .error _ => r
      | .ok c =>
        match jsonParse c with
        | none => r
        | some pkg =>
          let scripts := jsGet pkg "scripts"
          if jsOptTruthy (scripts.bind (fun s => jsGet s "dev")) ||
              jsOptTruthy (scripts.bind (fun s => jsGet s "start")) then
            r.updAL (fun s => (s.addPoint).addFinding "App has dev/start script (bootable)")
          else if ctx.isMonorepo && hasBootableWorkspace fs ctx then
            let n := ctx.monorepoWorkspaces.length
            r.updAL (fun s =>
              (s.addPoint).addFinding s!"Monorepo detected with {n} workspace(s), bootable workspace found")
          else r
    else r
  scoreDependencyFootprint fs ctx (scoreObservability fs ctx r)

/-- Model of `scoreGoldenPrinciples`: taste-rules doc (with principle count and
anti-pattern findings), CI presence (with gate-count finding), and the
tech-debt tracker. -/
def scoreGoldenPrinciples (fs : FsNode) (ctx : AuditRuntimeContext) (r : AuditResult) :
    Except String AuditResult :=
  let step1 : Except String AuditResult :=
    if existsSync fs ctx.goldenPath then
      match readFileSyncE fs ctx.goldenPath with
      | .error e => .error e
      | .ok goldenContent =>
        let r := r.updGP (fun s => s.addPoint)
        let principleCount := countGoldenPrinciples goldenContent
        let r :=
          if principleCount ≥ 5 then
            r.updGP (fun s =>
              s.addFinding s!"Golden principles documented ({principleCount} principles)")
          else
            r.updGP (fun s =>
              s.addFinding
                s!"Golden principles documented — only {principleCount} principles, consider adding more")
        if testCI goldenContent ["anti-pattern", "don" ++ sq ++ "t", "never", "avoid"] then
          .ok (r.updGP (fun s => s.addFinding "Anti-patterns documented"))
        else .ok r
    else
      .ok ((r.updGP (fun s => s.addFinding "No golden principles document")).addRec
        "Create docs/golden-principles.md with mechanical taste rules")
  match step1 with
  | .error e => .error e
  | .ok r =>
    let ciPaths := [".github/workflows", ".gitlab-ci.yml", "Jenkinsfile", ".circleci"]
    let hasCI := ciPaths.any (fun path => existsSync fs (pjoin ctx.targetDir path))
    let r :=
      if hasCI then
        let r := r.updGP (fun s => (s.addPoint).addFinding "CI pipeline exists for enforcement")
        if ctx.ciEnforcementSteps.length ≥ 3 then
          let n := ctx.ciEnforcementSteps.length
          let joined := String.intercalate ", " ctx.ciEnforcementSteps
          r.updGP (fun s => s.addFinding s!"CI enforces {n} quality gates ({joined})")
        else r
      else r.updGP (fun s => s.addFinding "No CI pipeline detected")
    if ctx.hasCleanupDocs then
      .ok (r.updGP (fun s => (s.addPoint).addFinding "Tech debt tracker exists"))
    else .ok r

/-- Model of `scoreAgentWorkflowConfig`: any recognized agent-config artifact. -/
def scoreAgentWorkflowConfig (fs : FsNode) (ctx : AuditRuntimeContext) (r : AuditResult) :
    AuditResult :=
  let agentConfigs := ["CLAUDE.md", ".claude", "CODEX.md", ".cursor", "conductor.json"]
  let hasAgentConfig := agentConfigs.any (fun file => existsSync fs (pjoin ctx.targetDir file))
  if hasAgentConfig then
    r.updAW (fun s => (s.addPoint).addFinding "Agent configuration found")
  else
    r.updAW (fun s =>
      s.addFinding "No agent configuration (CLAUDE.md, .cursor, conductor.json, etc.)")

/-- Model of `scoreAgentWorkflowGovernance`: PR template, risk policy, issue
templates or conductor config. -/
def scoreAgentWorkflowGovernance (fs : FsNode) (ctx : AuditRuntimeContext) (r : AuditResult) :
    AuditResult :=
  let hasPRTemplate :=
    existsSync fs (pjoin (pjoin ctx.targetDir ".github") "pull_request_template.md") ||
      existsSync fs (pjoin (pjoin ctx.targetDir ".github") "PULL_REQUEST_TEMPLATE.md")
  let hasIssueTemplates := existsSync fs (pjoin (pjoin ctx.targetDir ".github") "ISSUE_TEMPLATE")
  let hasConductor := existsSync fs (pjoin ctx.targetDir "conductor.json")
  if hasPRTemplate || ctx.hasRiskPolicy || hasIssueTemplates || hasConductor then
    let signals :=
      (if hasPRTemplate then ["PR template"] else []) ++
      (if ctx.hasRiskPolicy then ["risk-policy.json"] else []) ++
      (if hasIssueTemplates then ["issue templates"] else []) ++
      (if hasConductor then ["conductor.json"] else [])
    let joined := String.intercalate ", " signals
    r.updAW (fun s => (s.addPoint).addFinding s!"Workflow governance found ({joined})")
  else r

/-- Model of `scoreAgentWorkflowCi`: at least two of the four hard gates must have
been detected in CI. -/
def scoreAgentWorkflowCi (fs : FsNode) (ctx : AuditRuntimeContext) (r : AuditResult) :
    AuditResult :=
  if existsSync fs ctx.workflowDir then
    let workflowEnforcement :=
      ctx.ciEnforcementSteps.filter (fun step =>
        ["lint", "test", "build", "typecheck", "type-check"].contains step)
    if workflowEnforcement.length ≥ 2 then
      let joined := String.intercalate ", " workflowEnforcement
      r.updAW (fun s => (s.addPoint).addFinding s!"CI workflows with enforcement ({joined})")
    else
      r.updAW (fun s =>
        s.addFinding "CI workflows exist but lack sufficient enforcement steps (need 2+)")
  else r

/-- Model of `scoreAgentWorkflow`: the three sub-scorers in order. -/
def scoreAgentWorkflow (fs : FsNode) (ctx : AuditRuntimeContext) (r : AuditResult) :
    AuditResult :=
  scoreAgentWorkflowCi fs ctx (scoreAgentWorkflowGovernance fs ctx (scoreAgentWorkflowConfig fs ctx r))

/-- Script names `/doc-gardener|freshness/i`. -/
def docGardenerPat (e : String) : Bool := testCI e ["doc-gardener", "freshness"]

/-- Script names `/drift|docs-drift/i`. -/
def driftScriptPat (e : String) : Bool := testCI e ["drift", "docs-drift"]

/-- Model of `hasActiveDocGardening`: a verification-tracking design-doc index (the
read after the bare existence check may throw), a gardening script, or at
least three verified docs. -/
def hasActiveDocGardening (fs : FsNode) (ctx : AuditRuntimeContext) : Except String Bool :=
  let indexPath := pjoin (pjoin (pjoin ctx.targetDir "docs") "design-docs") "index.md"
  let step1 : Except String Bool :=
    if existsSync fs indexPath then
      match readFileSyncE fs indexPath with
      | .error e => .error e
      | .ok docGardeningContent =>
        .ok (testCI docGardeningContent ["verif", "status"] ||
          gapTest "last" "check" (strLower docGardeningContent))
    else .ok false
  match step1 with
  | .error e => .error e
  | .ok hit =>
    if hit then .ok true
    else
      let docGardenerScripts :=
        if existsSync fs (pjoin ctx.targetDir "scripts") then
          findFiles fs (pjoin ctx.targetDir "scripts") docGardenerPat 1
        else []
      if docGardenerScripts.length > 0 then .ok true
      else .ok (ctx.verifiedDocs.length ≥ 3)

/-- Model of `hasQualityGrades`: `/quality.*grade|grade/i` over the architecture
doc (the read after the bare existence check may throw). -/
def hasQualityGrades (fs : FsNode) (ctx : AuditRuntimeContext) : Except String Bool :=
  if !existsSync fs ctx.archMdPath then .ok false
  else
    match readFileSyncE fs ctx.archMdPath with
    | .error e => .error e
    | .ok architectureContent =>
      .ok (gapTest "quality" "grade" (strLower architectureContent) ||
        testCI architectureContent ["grade"])

/-- Model of `hasDriftEnforcement`: drift vocabulary in the risk policy (read in a
`try`) or a drift-check script. -/
def hasDriftEnforcement (fs : FsNode) (ctx : AuditRuntimeContext) : Bool :=
  let riskPolicyDrift :=
    if ctx.hasRiskPolicy then
      match readFileSyncE fs (pjoin ctx.targetDir "risk-policy.json") with
      | .error _ => false
      | .ok riskPolicyContent => testCI riskPolicyContent ["docsdriftrules", "watchpaths"]
    else false
  let docsDriftScripts :=
    if existsSync fs (pjoin ctx.targetDir "scripts") then
      findFiles fs (pjoin ctx.targetDir "scripts") driftScriptPat 1
    else []
  riskPolicyDrift || docsDriftScripts.length > 0

/-- Model of `scoreGarbageCollection`: tech-debt tracker, active doc-gardening, and
quality grades or drift enforcement. -/
def scoreGarbageCollection (fs : FsNode) (ctx : AuditRuntimeContext) (r : AuditResult) :
    Except String AuditResult :=
  let r :=
    if ctx.hasCleanupDocs then
      r.updGC (fun s => (s.addPoint).addFinding "Tech debt tracked in-repo")
    else r.updGC (fun s => s.addFinding "No tech debt tracking")
  match hasActiveDocGardening fs ctx with
  | .error e => .error e
  | .ok gardening =>
    let r :=
      if gardening then r.updGC (fun s => (s.addPoint).addFinding "Active doc-gardening detected")
      else r
    match hasQualityGrades fs ctx with
    | .error e => .error e
    | .ok qualityGradesFound =>
      let driftEnforcement := hasDriftEnforcement fs ctx
      if qualityGradesFound || driftEnforcement then
        let r := r.updGC (fun s => s.addPoint)
        let r :=
          if qualityGradesFound then
            r.updGC (fun s => s.addFinding "Quality grades tracked in architecture")
          else r
        if driftEnforcement then
          .ok (r.updGC (fun s => s.addFinding "Drift enforcement detected"))
        else .ok r
      else .ok r

/-- Model of `applyAuditScoring`: the six dimension scorers in declaration
order. -/
def applyAuditScoring (fs : FsNode) (ctx : AuditRuntimeContext) (r : AuditResult) :
    Except String AuditResult :=
  match scoreRepositoryKnowledge fs ctx r with
  | .error e => .error e
  | .ok r =>
    match scoreArchitectureEnforcement fs ctx r with
    | .error e => .error e
    | .ok r =>
      let r := scoreAgentLegibility fs ctx r
      match scoreGoldenPrinciples fs ctx r with
      | .error e => .error e
      | .ok r =>
        let r := scoreAgentWorkflow fs ctx r
        scoreGarbageCollection fs ctx r

/-- Model of `Object.values(result.scores).reduce((sum, s) => sum + s.score, 0)`:
the six dimension scores in declaration order. -/
def sumScores (s : AuditScores) : Int :=
  s.repository_knowledge.score + s.architecture_enforcement.score +
    s.agent_legibility.score + s.golden_principles.score +
    s.agent_workflow.score + s.garbage_collection.score

/-- Model of `path.basename`. -/
def basename (p : String) : String := (pathSegs p).getLastD ""

/-- The default recommendation appended when no scorer contributed one. -/
def defaultRecommendation : String :=
  "Project is well-structured. Consider evolving to next maturity level."

/-- Model of `runAudit` (`audit/index`): fail on a missing target, else build the
context, score, total and resolve the level, and default the
recommendation list.  `resolve` is modelled as the identity and the
timestamp is the external clock value. -/
def runAudit (fs : FsNode) (targetPath : String) (now : String) :
    Except String AuditResult :=
  let targetDir := targetPath
  if !existsSync fs targetDir then
    .error ("Directory does not exist: " ++ targetDir)
  else
    let context := buildAuditRuntimeContext fs targetDir
    let result := createAuditResult (basename targetDir) now
    match applyAuditScoring fs context result with
    | .error e => .error e
    | .ok result =>
      let result := { result with total_score := sumScores result.scores }
      let result := { result with maturity_level := resolveMaturityLevel result.total_score }
      let result :=
        if result.recommendations.isEmpty then result.addRec defaultRecommendation
        else result
      .ok result

/-! ## Scaffolding (`commands/init` and `lib/automation-pack`)

The template bodies are external collaborators (their literal content is
out of scope), so the file lists carry abstract contents; the paths and
the write discipline are the ones of the source. -/

/-- Replace the entry named `name` (append it when absent). -/
def setEntry : List (String × FsNode) → String → FsNode → List (String × FsNode)
  | [], name, node => [(name, node)]
  | (n, c) :: rest, name, node =>
    if n = name then (name, node) :: rest else (n, c) :: setEntry rest name node

/-- Model of `mkdirSync(p, { recursive: true })` along a segment list: creates the
missing directories, fails (`none`, an exception) when a file stands in
the way. -/
def mkdirSegs : List String → FsNode → Option FsNode
  | [], n => some n
  | _ :: _, .file _ _ => none
  | s :: rest, .dir rd entries =>
    match entries.lookup s with
    | some child =>
      match mkdirSegs rest child with
      | some child2 => some (.dir rd (setEntry entries s child2))
      | none => none
    | none =>
      match mkdirSegs rest (.dir true []) with
      | some child2 => some (.dir rd (setEntry entries s child2))
      | none => none

/-- Model of `mkdirSync(p, { recursive: true })` on a path. -/
def mkdirRecursive (fs : FsNode) (p : String) : Option FsNode :=
  mkdirSegs (pathSegs p) fs

/-- Model of `writeFileSync` along a segment list: overwrite or create the final
file; fails (`none`, an exception) when a parent is missing or a directory
stands at the final segment. -/
def writeFileSegs (content : String) : List String → FsNode → Option FsNode
  | [s], .dir rd entries =>
    (match entries.lookup s with
     | some (.dir _ _) => none
     | _ => some (.dir rd (setEntry entries s (.file true content))))
  | s :: rest, .dir rd entries =>
    (match entries.lookup s with
     | some child =>
       match writeFileSegs content rest child with
       | some child2 => some (.dir rd (setEntry entries s child2))
       | none => none
     | none => none)
  | _, .file _ _ => none
  | [], .dir _ _ => none

/-- Model of `writeFileSync` on a path. -/
def writeFileSyncM (fs : FsNode) (p : String) (content : String) : Option FsNode :=
  writeFileSegs content (pathSegs p) fs

/-- The base directory list of `createBaseDirectories`. -/
def baseDirs : List String :=
  ["docs/design-docs", "docs/exec-plans/active", "docs/exec-plans/completed",
   "docs/generated", "docs/product-specs", "docs/references"]

/-- The base file paths of `createBaseFiles`, in write order. -/
def baseFilePaths : List String :=
  ["AGENTS.md", "ARCHITECTURE.md", "risk-policy.json", "docs/golden-principles.md",
   "docs/design-docs/index.md", "docs/design-docs/core-beliefs.md",
   "docs/product-specs/index.md", "docs/exec-plans/tech-debt-tracker.md"]

/-- The loop of `createBaseDirectories`: skip an existing directory,
otherwise create it recursively and report it with a trailing slash. -/
def createDirsLoop (targetDir : String) :
    FsNode → List String → List String → Option (FsNode × List String)
  | fs, [], created => some (fs, created)
  | fs, d :: rest, created =>
    let fullPath := pjoin targetDir d
    if existsSync fs fullPath then createDirsLoop targetDir fs rest created
    else
      match mkdirRecursive fs fullPath with
      | some fs2 => createDirsLoop targetDir fs2 rest (created ++ [d ++ "/"])
      | none => none

/-- The loop of `createBaseFiles`: without `force`, an existing path is
never written; otherwise write and report. -/
def createFilesLoop (targetDir : String) (force : Bool) :
    FsNode → List (String × String) → List String → Option (FsNode × List String)
  | fs, [], created => some (fs, created)
  | fs, (path, content) :: rest, created =>
    let fullPath := pjoin targetDir path
    if existsSync fs fullPath && !force then createFilesLoop targetDir force fs rest created
    else
      match writeFileSyncM fs fullPath content with
      | some fs2 => createFilesLoop targetDir force fs2 rest (created ++ [path])
      | none => none

/-- Model of `createBaseDirectories`. -/
def createBaseDirectories (fs : FsNode) (targetDir : String) (created : List String) :
    Option (FsNode × List String) :=
  createDirsLoop targetDir fs baseDirs created

/-- Model of `createBaseFiles` over the materialized template list (path,
content). -/
def createBaseFiles (fs : FsNode) (targetDir : String)
    (files : List (String × String)) (force : Bool) (created : List String) :
    Option (FsNode × List String) :=
  createFilesLoop targetDir force fs files created

/-- The pack directory list of `scaffoldAutomationPack`. -/
def packDirs : List String := ["scripts", ".github/workflows"]

/-- The pack-file loop of `scaffoldAutomationPack`: write when the path is
missing or `force` is set. -/
def packFilesLoop (targetDir : String) (force : Bool) :
    FsNode → List (String × String) → List String → Option (FsNode × List String)
  | fs, [], created => some (fs, created)
  | fs, (path, content) :: rest, created =>
    let fullPath := pjoin targetDir path
    if !existsSync fs fullPath || force then
      match writeFileSyncM fs fullPath content with
      | some fs2 => packFilesLoop targetDir force fs2 rest (created ++ [path])
      | none => none
    else packFilesLoop targetDir force fs rest created

/-- Model of `scaffoldAutomationPack`: nothing for pack `none`; otherwise ensure
the pack directories and write the pack files (the materialized
`getAgentFactoryPackFiles()` list). -/
def scaffoldAutomationPack (fs : FsNode) (targetDir : String) (pack : String)
    (packFiles : List (String × String)) (force : Bool) :
    Option (FsNode × List String) :=
  if pack = "none" then some (fs, [])
  else
    match createDirsLoop targetDir fs packDirs [] with
    | none => none
    | some (fs, created) =>
      packFilesLoop targetDir force fs packFiles created

/-- The write phase of `runInit`: base directories, base files, then the
automation pack, accumulating the created list exactly as the source
does. -/
def runInitWrites (fs : FsNode) (targetDir : String)
    (baseFiles packFiles : List (String × String)) (selectedPack : String)
    (force : Bool) : Option (FsNode × List String) :=
  match createBaseDirectories fs targetDir [] with
  | none => none
  | some (fs, created) =>
    match createBaseFiles fs targetDir baseFiles force created with
    | none => none
    | some (fs, created) =>
      match scaffoldAutomationPack fs targetDir selectedPack packFiles force with
      | none => none
      | some (fs, packCreated) => some (fs, created ++ packCreated)

/-! ## Proof infrastructure -/

/-- One scoring step on a dimension: the score never drops, grows by at
most `k`, and the max is untouched. -/
def dimStep (a b : AuditScore) (k : Int) : Prop :=
  a.score ≤ b.score ∧ b.score ≤ a.score + k ∧ b.max = a.max

/-- One scoring step on a result: per-dimension `dimStep` bounds and all
non-score fields other than the findings/recommendations untouched. -/
def auditStep (r r' : AuditResult)
    (kRK kAE kAL kGP kAW kGC : Int) : Prop :=
  dimStep r.scores.repository_knowledge r'.scores.repository_knowledge kRK ∧
  dimStep r.scores.architecture_enforcement r'.scores.architecture_enforcement kAE ∧
  dimStep r.scores.agent_legibility r'.scores.agent_legibility kAL ∧
  dimStep r.scores.golden_principles r'.scores.golden_principles kGP ∧
  dimStep r.scores.agent_workflow r'.scores.agent_workflow kAW ∧
  dimStep r.scores.garbage_collection r'.scores.garbage_collection kGC ∧
  r'.max_score = r.max_score ∧ r'.project = r.project ∧ r'.timestamp = r.timestamp ∧
  r'.total_score = r.total_score

theorem dimStep_trans {a b c : AuditScore} {k k' : Int}
    (h1 : dimStep a b k) (h2 : dimStep b c k') : dimStep a c (k + k') := by
  obtain ⟨h1a, h1b, h1c⟩ := h1
  obtain ⟨h2a, h2b, h2c⟩ := h2
  exact ⟨le_trans h1a h2a, by omega, by rw [h2c, h1c]⟩

theorem auditStep_trans {r r' r'' : AuditResult}
    {a1 a2 a3 a4 a5 a6 b1 b2 b3 b4 b5 b6 : Int}
    (h1 : auditStep r r' a1 a2 a3 a4 a5 a6)
    (h2 : auditStep r' r'' b1 b2 b3 b4 b5 b6) :
    auditStep r r'' (a1 + b1) (a2 + b2) (a3 + b3) (a4 + b4) (a5 + b5) (a6 + b6) := by
  obtain ⟨c1, c2, c3, c4, c5, c6, c7, c8, c9, c10⟩ := h1
  obtain ⟨d1, d2, d3, d4, d5, d6, d7, d8, d9, d10⟩ := h2
  exact ⟨dimStep_trans c1 d1, dimStep_trans c2 d2, dimStep_trans c3 d3,
    dimStep_trans c4 d4, dimStep_trans c5 d5, dimStep_trans c6 d6,
    by rw [d7, c7], by rw [d8, c8], by rw [d9, c9], by rw [d10, c10]⟩

theorem scoreRepositoryAgents_step {fs : FsNode} {ctx : AuditRuntimeContext}
    {r r' : AuditResult} (h : scoreRepositoryAgents fs ctx r = .ok r') :
    auditStep r r' 1 0 0 0 0 0 := by
  unfold scoreRepositoryAgents at h
  dsimp only at h
  split at h
  next e heq => exact (Except.noConfusion h)
  next r1 heq =>
    repeat' split at heq
    all_goals try exact (Except.noConfusion heq)
    all_goals simp only [Except.ok.injEq] at heq
    all_goals subst heq
    all_goals split at h
    all_goals simp only [Except.ok.injEq] at h
    all_goals subst h
    all_goals simp only [auditStep, dimStep, AuditResult.updRK, AuditResult.updAE,
      AuditResult.updAL, AuditResult.updGP, AuditResult.updAW, AuditResult.updGC,
      AuditResult.addRec, AuditScore.addPoint, AuditScore.addFinding]
    all_goals repeat' constructor
    all_goals first | rfl | omega | simp

theorem auditStep_weaken {r r' : AuditResult} {a1 a2 a3 a4 a5 a6 b1 b2 b3 b4 b5 b6 : Int}
    (h : auditStep r r' a1 a2 a3 a4 a5 a6)
    (h1 : a1 ≤ b1) (h2 : a2 ≤ b2) (h3 : a3 ≤ b3)
    (h4 : a4 ≤ b4) (h5 : a5 ≤ b5) (h6 : a6 ≤ b6) :
    auditStep r r' b1 b2 b3 b4 b5 b6 := by
  obtain ⟨⟨c1, c1b, c1c⟩, ⟨c2, c2b, c2c⟩, ⟨c3, c3b, c3c⟩, ⟨c4, c4b, c4c⟩,
    ⟨c5, c5b, c5c⟩, ⟨c6, c6b, c6c⟩, c7, c8, c9, c10⟩ := h
  exact ⟨⟨c1, by omega, c1c⟩, ⟨c2, by omega, c2c⟩, ⟨c3, by omega, c3c⟩,
    ⟨c4, by omega, c4c⟩, ⟨c5, by omega, c5c⟩, ⟨c6, by omega, c6c⟩, c7, c8, c9, c10⟩

theorem scoreRepositoryDocs_step {fs : FsNode} {ctx : AuditRuntimeContext}
    {r r' : AuditResult} (h : scoreRepositoryDocs fs ctx r = .ok r') :
    auditStep r r' 1 0 0 0 0 0 := by
  unfold scoreRepositoryDocs at h
  dsimp only at h
  repeat' split at h
  all_goals try exact (Except.noConfusion h)
  all_goals simp only [Except.ok.injEq] at h
  all_goals subst h
  all_goals simp only [auditStep, dimStep, AuditResult.updRK, AuditResult.updAE,
    AuditResult.updAL, AuditResult.updGP, AuditResult.updAW, AuditResult.updGC,
    AuditResult.addRec, AuditScore.addPoint, AuditScore.addFinding]
  all_goals repeat' constructor
  all_goals first | rfl | omega | simp

theorem scoreRepositoryExecutionPlans_step (fs : FsNode) (ctx : AuditRuntimeContext)
    (r : AuditResult) :
    auditStep r (scoreRepositoryExecutionPlans fs ctx r) 1 0 0 0 0 0 := by
  unfold scoreRepositoryExecutionPlans
  dsimp only
  repeat' split
  all_goals simp only [auditStep, dimStep, AuditResult.updRK, AuditResult.updAE,
    AuditResult.updAL, AuditResult.updGP, AuditResult.updAW, AuditResult.updGC,
    AuditResult.addRec, AuditScore.addPoint, AuditScore.addFinding]
  all_goals repeat' constructor
  all_goals first | rfl | omega | simp

theorem scoreRepositoryKnowledge_step {fs : FsNode} {ctx : AuditRuntimeContext}
    {r r' : AuditResult} (h : scoreRepositoryKnowledge fs ctx r = .ok r') :
    auditStep r r' 3 0 0 0 0 0 := by
  unfold scoreRepositoryKnowledge at h
  split at h
  next e heq => exact (Except.noConfusion h)
  next r1 heq1 =>
    split at h
    next e heq => exact (Except.noConfusion h)
    next r2 heq2 =>
      simp only [Except.ok.injEq] at h
      subst h
      exact auditStep_weaken
        (auditStep_trans (auditStep_trans (scoreRepositoryAgents_step heq1)
          (scoreRepositoryDocs_step heq2))
          (scoreRepositoryExecutionPlans_step fs ctx r2))
        (by norm_num) (by norm_num) (by norm_num) (by norm_num) (by norm_num) (by norm_num)

theorem scoreArchitectureEnforcement_step {fs : FsNode} {ctx : AuditRuntimeContext}
    {r r' : AuditResult} (h : scoreArchitectureEnforcement fs ctx r = .ok r') :
    auditStep r r' 0 3 0 0 0 0 := by
  unfold scoreArchitectureEnforcement at h
  dsimp only at h
  split at h
  next e heq => exact (Except.noConfusion h)
  next r1 heq =>
    repeat' split at h
    all_goals try exact (Except.noConfusion h)
    all_goals simp only [Except.ok.injEq] at h
    all_goals subst h
    all_goals repeat' split at heq
    all_goals try exact (Except.noConfusion heq)
    all_goals simp only [Except.ok.injEq] at heq
    all_goals subst heq
    all_goals simp only [auditStep, dimStep, AuditResult.updRK, AuditResult.updAE,
      AuditResult.updAL, AuditResult.updGP, AuditResult.updAW, AuditResult.updGC,
      AuditResult.addRec, AuditScore.addPoint, AuditScore.addFinding]
    all_goals repeat' constructor
    all_goals first | rfl | omega | simp

theorem scoreObservability_step (fs : FsNode) (ctx : AuditRuntimeContext) (r : AuditResult) :
    auditStep r (scoreObservability fs ctx r) 0 0 1 0 0 0 := by
  unfold scoreObservability
  dsimp only
  repeat' split
  all_goals simp only [auditStep, dimStep, AuditResult.updRK, AuditResult.updAE,
    AuditResult.updAL, AuditResult.updGP, AuditResult.updAW, AuditResult.updGC,
    AuditResult.addRec, AuditScore.addPoint, AuditScore.addFinding]
  all_goals repeat' constructor
  all_goals first | rfl | omega | simp

theorem scoreMonorepoDependencyFootprint_step (fs : FsNode) (ctx : AuditRuntimeContext)
    (r : AuditResult) :
    auditStep r (scoreMonorepoDependencyFootprint fs ctx r) 0 0 1 0 0 0 := by
  unfold scoreMonorepoDependencyFootprint
  dsimp only
  repeat' split
  all_goals simp only [auditStep, dimStep, AuditResult.updRK, AuditResult.updAE,
    AuditResult.updAL, AuditResult.updGP, AuditResult.updAW, AuditResult.updGC,
    AuditResult.addRec, AuditScore.addPoint, AuditScore.addFinding]
  all_goals repeat' constructor
  all_goals first | rfl | omega | simp

theorem scoreDependencyFootprint_step (fs : FsNode) (ctx : AuditRuntimeContext)
    (r : AuditResult) :
    auditStep r (scoreDependencyFootprint fs ctx r) 0 0 1 0 0 0 := by
  unfold scoreDependencyFootprint
  dsimp only
  repeat' split
  all_goals try exact scoreMonorepoDependencyFootprint_step fs ctx r
  all_goals simp only [auditStep, dimStep, AuditResult.updRK, AuditResult.updAE,
    AuditResult.updAL, AuditResult.updGP, AuditResult.updAW, AuditResult.updGC,
    AuditResult.addRec, AuditScore.addPoint, AuditScore.addFinding]
  all_goals repeat' constructor
  all_goals first | rfl | omega | simp

theorem scoreAgentLegibility_step (fs : FsNode) (ctx : AuditRuntimeContext) (r : AuditResult) :
    auditStep r (scoreAgentLegibility fs ctx r) 0 0 3 0 0 0 := by
  unfold scoreAgentLegibility
  dsimp only
  refine auditStep_weaken
    (auditStep_trans (auditStep_trans (?_ : auditStep r _ 0 0 1 0 0 0)
      (scoreObservability_step fs ctx _))
      (scoreDependencyFootprint_step fs ctx _))
    (by norm_num) (by norm_num) (by norm_num) (by norm_num) (by norm_num) (by norm_num)
  repeat' split
  all_goals simp only [auditStep, dimStep, AuditResult.updRK, AuditResult.updAE,
    AuditResult.updAL, AuditResult.updGP, AuditResult.updAW, AuditResult.updGC,
    AuditResult.addRec, AuditScore.addPoint, AuditScore.addFinding]
  all_goals repeat' constructor
  all_goals first | rfl | omega | simp

theorem scoreGoldenPrinciples_step {fs : FsNode} {ctx : AuditRuntimeContext}
    {r r' : AuditResult} (h : scoreGoldenPrinciples fs ctx r = .ok r') :
    auditStep r r' 0 0 0 3 0 0 := by
  unfold scoreGoldenPrinciples at h
  dsimp only at h
  split at h
  next e heq => exact (Except.noConfusion h)
  next r1 heq =>
    repeat' split at h
    all_goals try exact (Except.noConfusion h)
    all_goals simp only [Except.ok.injEq] at h
    all_goals subst h
    all_goals repeat' split at heq
    all_goals try exact (Except.noConfusion heq)
    all_goals simp only [Except.ok.injEq] at heq
    all_goals subst heq
    all_goals simp only [auditStep, dimStep, AuditResult.updRK, AuditResult.updAE,
      AuditResult.updAL, AuditResult.updGP, AuditResult.updAW, AuditResult.updGC,
      AuditResult.addRec, AuditScore.addPoint, AuditScore.addFinding]
    all_goals repeat' constructor
    all_goals first | rfl | omega | simp

theorem scoreAgentWorkflowConfig_step (fs : FsNode) (ctx : AuditRuntimeContext)
    (r : AuditResult) :
    auditStep r (scoreAgentWorkflowConfig fs ctx r) 0 0 0 0 1 0 := by
  unfold scoreAgentWorkflowConfig
  dsimp only
  repeat' split
  all_goals simp only [auditStep, dimStep, AuditResult.updRK, AuditResult.updAE,
    AuditResult.updAL, AuditResult.updGP, AuditResult.updAW, AuditResult.updGC,
    AuditResult.addRec, AuditScore.addPoint, AuditScore.addFinding]
  all_goals repeat' constructor
  all_goals first | rfl | omega | simp

theorem scoreAgentWorkflowGovernance_step (fs : FsNode) (ctx : AuditRuntimeContext)
    (r : AuditResult) :
    auditStep r (scoreAgentWorkflowGovernance fs ctx r) 0 0 0 0 1 0 := by
  unfold scoreAgentWorkflowGovernance
  dsimp only
  repeat' split
  all_goals simp only [auditStep, dimStep, AuditResult.updRK, AuditResult.updAE,
    AuditResult.updAL, AuditResult.updGP, AuditResult.updAW, AuditResult.updGC,
    AuditResult.addRec, AuditScore.addPoint, AuditScore.addFinding]
  all_goals repeat' constructor
  all_goals first | rfl | omega | simp

theorem scoreAgentWorkflowCi_step (fs : FsNode) (ctx : AuditRuntimeContext)
    (r : AuditResult) :
    auditStep r (scoreAgentWorkflowCi fs ctx r) 0 0 0 0 1 0 := by
  unfold scoreAgentWorkflowCi
  dsimp only
  repeat' split
  all_goals simp only [auditStep, dimStep, AuditResult.updRK, AuditResult.updAE,
    AuditResult.updAL, AuditResult.updGP, AuditResult.updAW, AuditResult.updGC,
    AuditResult.addRec, AuditScore.addPoint, AuditScore.addFinding]
  all_goals repeat' constructor
  all_goals first | rfl | omega | simp

theorem scoreAgentWorkflow_step (fs : FsNode) (ctx : AuditRuntimeContext) (r : AuditResult) :
    auditStep r (scoreAgentWorkflow fs ctx r) 0 0 0 0 3 0 := by
  unfold scoreAgentWorkflow
  exact auditStep_weaken
    (auditStep_trans (auditStep_trans (scoreAgentWorkflowConfig_step fs ctx r)
      (scoreAgentWorkflowGovernance_step fs ctx _))
      (scoreAgentWorkflowCi_step fs ctx _))
    (by norm_num) (by norm_num) (by norm_num) (by norm_num) (by norm_num) (by norm_num)

theorem scoreGarbageCollection_step {fs : FsNode} {ctx : AuditRuntimeContext}
    {r r' : AuditResult} (h : scoreGarbageCollection fs ctx r = .ok r') :
    auditStep r r' 0 0 0 0 0 3 := by
  unfold scoreGarbageCollection at h
  dsimp only at h
  repeat' split at h
  all_goals try exact (Except.noConfusion h)
  all_goals simp only [Except.ok.injEq] at h
  all_goals subst h
  all_goals simp only [auditStep, dimStep, AuditResult.updRK, AuditResult.updAE,
    AuditResult.updAL, AuditResult.updGP, AuditResult.updAW, AuditResult.updGC,
    AuditResult.addRec, AuditScore.addPoint, AuditScore.addFinding]
  all_goals repeat' constructor
  all_goals first | rfl | omega | simp

theorem applyAuditScoring_step {fs : FsNode} {ctx : AuditRuntimeContext}
    {r r' : AuditResult} (h : applyAuditScoring fs ctx r = .ok r') :
    auditStep r r' 3 3 3 3 3 3 := by
  unfold applyAuditScoring at h
  split at h
  next e heq => exact (Except.noConfusion h)
  next r1 heq1 =>
    split at h
    next e heq => exact (Except.noConfusion h)
    next r2 heq2 =>
      dsimp only at h
      split at h
      next e heq => exact (Except.noConfusion h)
      next r3 heq3 =>
        exact auditStep_weaken
          (auditStep_trans (auditStep_trans (auditStep_trans (auditStep_trans
            (auditStep_trans (scoreRepositoryKnowledge_step heq1)
              (scoreArchitectureEnforcement_step heq2))
            (scoreAgentLegibility_step fs ctx r2))
            (scoreGoldenPrinciples_step heq3))
            (scoreAgentWorkflow_step fs ctx r3))
            (scoreGarbageCollection_step h))
          (by norm_num) (by norm_num) (by norm_num) (by norm_num) (by norm_num) (by norm_num)

/-! ## Claim theorems -/

/-- C1: `resolveMaturityLevel` maps every integer total score to exactly
one of the five labels, following the partition `≤4 / ≤8 / ≤13 / ≤16 /
else` with boundaries inclusive on the upper edge, and over `[0, 18]` the
assigned level is monotonically non-decreasing in the score. -/
theorem resolveMaturityLevel_partition_monotone (s t : Int)
    (hs : 0 ≤ s) (hst : s ≤ t) (ht : t ≤ 18) :
    resolveMaturityLevel s ∈ maturityLabels ∧
    (s ≤ 4 ↔ resolveMaturityLevel s = "L0: Manual") ∧
    ((5 ≤ s ∧ s ≤ 8) ↔ resolveMaturityLevel s = "L1: Assisted") ∧
    ((9 ≤ s ∧ s ≤ 13) ↔ resolveMaturityLevel s = "L2: Steered") ∧
    ((14 ≤ s ∧ s ≤ 16) ↔ resolveMaturityLevel s = "L3: Autonomous") ∧
    (17 ≤ s ↔ resolveMaturityLevel s = "L4: Self-Correcting") ∧
    maturityIndex (resolveMaturityLevel s) ≤ maturityIndex (resolveMaturityLevel t) := by
  unfold resolveMaturityLevel maturityIndex maturityLabels
  split_ifs <;> simp_all <;> first | omega | decide | (constructor <;> omega)

/-- Witness for C1 at the concrete scores 9 and 14. -/
theorem resolveMaturityLevel_partition_monotone_witness :
    (0 ≤ (9 : Int)) ∧ ((9 : Int) ≤ 14) ∧ ((14 : Int) ≤ 18) ∧
    maturityIndex (resolveMaturityLevel 9) ≤ maturityIndex (resolveMaturityLevel 14) :=
  ⟨by decide, by decide, by decide,
    (resolveMaturityLevel_partition_monotone 9 14 (by decide) (by decide)
      (by decide)).2.2.2.2.2.2⟩

/-- C2: every `AuditResult` that `runAudit` returns satisfies
`total_score = Σ` of the six dimension scores and `max_score = 18`. -/
theorem runAudit_total_eq_sum (fs : FsNode) (targetPath now : String) (r : AuditResult)
    (h : runAudit fs targetPath now = .ok r) :
    r.total_score = sumScores r.scores ∧ r.max_score = 18 := by
  unfold runAudit at h
  dsimp only at h
  split at h
  · exact (Except.noConfusion h)
  · split at h
    next e heq => exact (Except.noConfusion h)
    next r2 heq =>
      simp only [Except.ok.injEq] at h
      subst h
      have hstep := applyAuditScoring_step heq
      obtain ⟨_, _, _, _, _, _, hmax, _, _, _⟩ := hstep
      constructor
      · split <;> simp [AuditResult.addRec, sumScores]
      · split <;> simp_all [AuditResult.addRec, createAuditResult]

/-- The empty audited directory used by several witnesses. -/
def auditFsW : FsNode := .dir true [("t", .dir true [])]

/-- The audit result on the empty directory. -/
def auditResW : AuditResult :=
  ((runAudit auditFsW "t" "now").toOption).getD (createAuditResult "" "")

/-- Witness for C2 on the empty directory. -/
theorem runAudit_total_eq_sum_witness :
    runAudit auditFsW "t" "now" = .ok auditResW ∧
    auditResW.total_score = sumScores auditResW.scores ∧ auditResW.max_score = 18 :=
  ⟨rfl, runAudit_total_eq_sum auditFsW "t" "now" auditResW rfl⟩

/-- C9: after `applyAuditScoring` on a fresh result, every dimension
satisfies `0 ≤ score ≤ max` with `max = 3`. -/
theorem applyAuditScoring_dimension_bounds (fs : FsNode) (ctx : AuditRuntimeContext)
    (name now : String) (r' : AuditResult)
    (h : applyAuditScoring fs ctx (createAuditResult name now) = .ok r') :
    (0 ≤ r'.scores.repository_knowledge.score ∧
      r'.scores.repository_knowledge.score ≤ r'.scores.repository_knowledge.max ∧
      r'.scores.repository_knowledge.max = 3) ∧
    (0 ≤ r'.scores.architecture_enforcement.score ∧
      r'.scores.architecture_enforcement.score ≤ r'.scores.architecture_enforcement.max ∧
      r'.scores.architecture_enforcement.max = 3) ∧
    (0 ≤ r'.scores.agent_legibility.score ∧
      r'.scores.agent_legibility.score ≤ r'.scores.agent_legibility.max ∧
      r'.scores.agent_legibility.max = 3) ∧
    (0 ≤ r'.scores.golden_principles.score ∧
      r'.scores.golden_principles.score ≤ r'.scores.golden_principles.max ∧
      r'.scores.golden_principles.max = 3) ∧
    (0 ≤ r'.scores.agent_workflow.score ∧
      r'.scores.agent_workflow.score ≤ r'.scores.agent_workflow.max ∧
      r'.scores.agent_workflow.max = 3) ∧
    (0 ≤ r'.scores.garbage_collection.score ∧
      r'.scores.garbage_collection.score ≤ r'.scores.garbage_collection.max ∧
      r'.scores.garbage_collection.max = 3) := by
  have hstep := applyAuditScoring_step h
  obtain ⟨⟨d1a, d1b, d1c⟩, ⟨d2a, d2b, d2c⟩, ⟨d3a, d3b, d3c⟩, ⟨d4a, d4b, d4c⟩,
    ⟨d5a, d5b, d5c⟩, ⟨d6a, d6b, d6c⟩, _, _, _, _⟩ := hstep
  simp only [createAuditResult] at d1a d1b d1c d2a d2b d2c d3a d3b d3c
  simp only [createAuditResult] at d4a d4b d4c d5a d5b d5c d6a d6b d6c
  refine ⟨⟨?_, ?_, ?_⟩, ⟨?_, ?_, ?_⟩, ⟨?_, ?_, ?_⟩, ⟨?_, ?_, ?_⟩, ⟨?_, ?_, ?_⟩, ⟨?_, ?_, ?_⟩⟩ <;>
    omega

/-- The scored result on the empty directory. -/
def scoringResW : AuditResult :=
  ((applyAuditScoring auditFsW (buildAuditRuntimeContext auditFsW "t")
    (createAuditResult "t" "now")).toOption).getD (createAuditResult "" "")

/-- Witness for C9 on the empty directory. -/
theorem applyAuditScoring_dimension_bounds_witness :
    applyAuditScoring auditFsW (buildAuditRuntimeContext auditFsW "t")
      (createAuditResult "t" "now") = .ok scoringResW ∧
    0 ≤ scoringResW.scores.repository_knowledge.score ∧
    scoringResW.scores.repository_knowledge.max = 3 :=
  ⟨rfl, (applyAuditScoring_dimension_bounds auditFsW (buildAuditRuntimeContext auditFsW "t")
    "t" "now" scoringResW rfl).1.1,
   (applyAuditScoring_dimension_bounds auditFsW (buildAuditRuntimeContext auditFsW "t")
    "t" "now" scoringResW rfl).1.2.2⟩

/-- C10: `runAudit` always returns a non-empty recommendation list, and
when the scorers contributed none it is exactly the single default
entry. -/
theorem runAudit_recommendations_nonempty (fs : FsNode) (targetPath now : String)
    (r : AuditResult) (h : runAudit fs targetPath now = .ok r) :
    r.recommendations ≠ [] ∧
    (∀ r2, applyAuditScoring fs (buildAuditRuntimeContext fs targetPath)
        (createAuditResult (basename targetPath) now) = .ok r2 →
      r2.recommendations = [] → r.recommendations = [defaultRecommendation]) := by
  unfold runAudit at h
  dsimp only at h
  split at h
  · exact (Except.noConfusion h)
  · split at h
    next e heq => exact (Except.noConfusion h)
    next r2 heq =>
      simp only [Except.ok.injEq] at h
      subst h
      constructor
      · split
        next hempty => simp [AuditResult.addRec]
        next hne => simpa using hne
      · intro r2' heq' hempty
        rw [heq] at heq'
        simp only [Except.ok.injEq] at heq'
        subst heq'
        simp [AuditResult.addRec, hempty]

/-- Witness for C10 on the empty directory. -/
theorem runAudit_recommendations_nonempty_witness :
    runAudit auditFsW "t" "now" = .ok auditResW ∧ auditResW.recommendations ≠ [] :=
  ⟨rfl, (runAudit_recommendations_nonempty auditFsW "t" "now" auditResW rfl).1⟩

/-- C4: the Repository Knowledge map-file sub-check awards +1 for an
`AGENTS.md` of exactly 150 lines and awards nothing for 151 lines while
appending a finding containing "too long". -/
theorem scoreRepositoryAgents_map_file_boundary
    (fs1 fs2 : FsNode) (ctx1 ctx2 : AuditRuntimeContext) (r1 r2 : AuditResult)
    (c1 c2 : String)
    (h1read : readFileSyncE fs1 (pjoin ctx1.targetDir "AGENTS.md") = .ok c1)
    (h1len : splitLines c1 = 150)
    (h2read : readFileSyncE fs2 (pjoin ctx2.targetDir "AGENTS.md") = .ok c2)
    (h2len : splitLines c2 = 151) :
    (∃ r', scoreRepositoryAgents fs1 ctx1 r1 = .ok r' ∧
      r'.scores.repository_knowledge.score = r1.scores.repository_knowledge.score + 1) ∧
    (∃ r', scoreRepositoryAgents fs2 ctx2 r2 = .ok r' ∧
      r'.scores.repository_knowledge.score = r2.scores.repository_knowledge.score ∧
      ∃ f ∈ r'.scores.repository_knowledge.findings, strContainsSub f "too long" = true) := by
  have hex1 : existsSync fs1 (pjoin ctx1.targetDir "AGENTS.md") = true := by
    unfold readFileSyncE at h1read
    unfold existsSync
    cases hl : lookupPath fs1 (pjoin ctx1.targetDir "AGENTS.md") with
    | none => rw [hl] at h1read; exact (Except.noConfusion h1read)
    | some n => simp
  have hex2 : existsSync fs2 (pjoin ctx2.targetDir "AGENTS.md") = true := by
    unfold readFileSyncE at h2read
    unfold existsSync
    cases hl : lookupPath fs2 (pjoin ctx2.targetDir "AGENTS.md") with
    | none => rw [hl] at h2read; exact (Except.noConfusion h2read)
    | some n => simp
  constructor
  · unfold scoreRepositoryAgents
    dsimp only
    rw [hex1]
    simp only [if_true]
    rw [h1read]
    dsimp only
    rw [h1len]
    simp only [show (150 : Nat) ≤ 150 from by omega, if_true]
    split
    · exact ⟨_, rfl, by
        simp [AuditResult.updRK, AuditScore.addPoint, AuditScore.addFinding]⟩
    · exact ⟨_, rfl, by
        simp [AuditResult.updRK, AuditScore.addPoint, AuditScore.addFinding]⟩
  · unfold scoreRepositoryAgents
    dsimp only
    rw [hex2]
    simp only [if_true]
    rw [h2read]
    dsimp only
    rw [h2len]
    simp only [show ¬ ((151 : Nat) ≤ 150) from by omega, if_false]
    split
    · refine ⟨_, rfl, by simp [AuditResult.updRK, AuditScore.addFinding], ?_⟩
      refine ⟨"AGENTS.md exists but too long (151 lines, target: <150)", ?_, by decide⟩
      simp only [AuditResult.updRK, AuditScore.addFinding, List.mem_append, List.mem_singleton]
      exact Or.inl (Or.inr rfl)
    · refine ⟨_, rfl, by simp [AuditResult.updRK, AuditScore.addFinding], ?_⟩
      refine ⟨"AGENTS.md exists but too long (151 lines, target: <150)", ?_, by decide⟩
      simp only [AuditResult.updRK, AuditScore.addFinding, List.mem_append, List.mem_singleton]
      exact Or.inr rfl

/-- A 150-line map file: 149 newline characters. -/
def agents150 : String := String.mk (List.replicate 149 '\n')

/-- A 151-line map file: 150 newline characters. -/
def agents151 : String := String.mk (List.replicate 150 '\n')

/-- The two witness trees for the map-file boundary. -/
def mapFsW1 : FsNode := .dir true [("t", .dir true [("AGENTS.md", .file true agents150)])]

/-- The 151-line variant of the witness tree. -/
def mapFsW2 : FsNode := .dir true [("t", .dir true [("AGENTS.md", .file true agents151)])]

set_option maxRecDepth 4000 in
/-- Witness for C4 at 150- and 151-line map files. -/
theorem scoreRepositoryAgents_map_file_boundary_witness :
    (∃ r', scoreRepositoryAgents mapFsW1 (buildAuditRuntimeContext mapFsW1 "t")
        (createAuditResult "t" "now") = .ok r' ∧
      r'.scores.repository_knowledge.score =
        (createAuditResult "t" "now").scores.repository_knowledge.score + 1) ∧
    (∃ r', scoreRepositoryAgents mapFsW2 (buildAuditRuntimeContext mapFsW2 "t")
        (createAuditResult "t" "now") = .ok r' ∧
      r'.scores.repository_knowledge.score =
        (createAuditResult "t" "now").scores.repository_knowledge.score ∧
      ∃ f ∈ r'.scores.repository_knowledge.findings, strContainsSub f "too long" = true) :=
  scoreRepositoryAgents_map_file_boundary mapFsW1 mapFsW2
    (buildAuditRuntimeContext mapFsW1 "t") (buildAuditRuntimeContext mapFsW2 "t")
    (createAuditResult "t" "now") (createAuditResult "t" "now")
    agents150 agents151 (by rfl) (by decide) (by rfl) (by decide)

/-- The `.yml`/`.yaml` names `scanWorkflowsForEnforcement` will read. -/
def workflowYamlNames (fs : FsNode) (workflowDir : String) : List String :=
  match readdirE fs workflowDir with
  | .ok names => names.filter (fun f => strEnds f ".yml" || strEnds f ".yaml")
  | .error _ => []

/-- A workflow file carrying no recognized gate keyword (an unreadable
file counts as clean: it stops the scan loop without adding a gate). -/
def fileClean (fs : FsNode) (workflowDir f : String) : Bool :=
  match readFileSyncE fs (pjoin workflowDir f) with
  | .ok content => keywordPatterns.all (fun kp => !(wbTest kp.2 (strLower content)))
  | .error _ => true

theorem scanFileSteps_id (steps : List String) (content : String)
    (h : keywordPatterns.all (fun kp => !(wbTest kp.2 (strLower content))) = true) :
    scanFileSteps steps content = steps := by
  unfold scanFileSteps
  simp only [keywordPatterns, List.all_cons, List.all_nil, Bool.and_eq_true,
    Bool.not_eq_true'] at h
  obtain ⟨h1, h2, h3, h4, h5, h6, h7, _⟩ := h
  simp [keywordPatterns, List.foldl, h1, h2, h3, h4, h5, h6, h7]

theorem scanWorkflowsLoop_clean (fs : FsNode) (dir : String) :
    ∀ (files : List String) (steps : List String),
      files.all (fileClean fs dir) = true →
      scanWorkflowsLoop fs dir files steps = steps := by
  intro files
  induction files with
  | nil => intro steps _; rfl
  | cons f rest ih =>
    intro steps hall
    simp only [List.all_cons, Bool.and_eq_true] at hall
    obtain ⟨hf, hrest⟩ := hall
    unfold scanWorkflowsLoop
    unfold fileClean at hf
    cases hr : readFileSyncE fs (pjoin dir f) with
    | error e => rfl
    | ok content =>
      rw [hr] at hf
      dsimp only at hf ⊢
      rw [scanFileSteps_id steps content hf]
      exact ih steps hrest

/-- C5: when no workflow file carries a recognized gate keyword (e.g. the
checkout-only workflow), `scanWorkflowsForEnforcement` returns the empty
gate set — in particular neither "lint" nor "test" — and the Agent
Workflow CI sub-check (2+ gates) awards nothing. -/
theorem scanWorkflows_checkout_only_no_gates (fs : FsNode) (workflowDir : String)
    (hclean : (workflowYamlNames fs workflowDir).all (fileClean fs workflowDir) = true) :
    scanWorkflowsForEnforcement fs workflowDir = [] ∧
    "lint" ∉ scanWorkflowsForEnforcement fs workflowDir ∧
    "test" ∉ scanWorkflowsForEnforcement fs workflowDir ∧
    (∀ (ctx : AuditRuntimeContext) (r : AuditResult),
      ctx.ciEnforcementSteps = scanWorkflowsForEnforcement fs workflowDir →
      (scoreAgentWorkflowCi fs ctx r).scores.agent_workflow.score =
        r.scores.agent_workflow.score) := by
  have hscan : scanWorkflowsForEnforcement fs workflowDir = [] := by
    unfold scanWorkflowsForEnforcement
    unfold workflowYamlNames at hclean
    cases hr : readdirE fs workflowDir with
    | error e => rfl
    | ok names =>
      rw [hr] at hclean
      dsimp only at hclean ⊢
      exact scanWorkflowsLoop_clean fs workflowDir _ [] hclean
  refine ⟨hscan, by simp [hscan], by simp [hscan], ?_⟩
  intro ctx r hsteps
  unfold scoreAgentWorkflowCi
  rw [hsteps, hscan]
  split
  · simp [AuditResult.updAW, AuditScore.addFinding]
  · rfl

/-- The checkout-only workflow directory. -/
def wfFsW : FsNode :=
  .dir true [("wf", .dir true
    [("ci.yml", .file true "steps:\n  - uses: actions/checkout@v4\n")])]

/-- Witness for C5 on a workflow containing only a checkout step. -/
theorem scanWorkflows_checkout_only_no_gates_witness :
    (workflowYamlNames wfFsW "wf").all (fileClean wfFsW "wf") = true ∧
    scanWorkflowsForEnforcement wfFsW "wf" = [] ∧
    "lint" ∉ scanWorkflowsForEnforcement wfFsW "wf" ∧
    "test" ∉ scanWorkflowsForEnforcement wfFsW "wf" :=
  ⟨by decide,
   (scanWorkflows_checkout_only_no_gates wfFsW "wf" (by decide)).1,
   (scanWorkflows_checkout_only_no_gates wfFsW "wf" (by decide)).2.1,
   (scanWorkflows_checkout_only_no_gates wfFsW "wf" (by decide)).2.2.1⟩

theorem exceptIsOk_ok {e a : Type} (x : a) : (Except.ok x : Except e a).isOk = true := rfl

theorem exceptIsOk_error {e a : Type} (x : e) : (Except.error x : Except e a).isOk = false := rfl

/-- The four paths the scorers read after a bare `existsSync` check (no
`try`/`catch`): the only reads that can propagate an exception out of
`runAudit` besides the missing-target error. -/
def probedPaths (ctx : AuditRuntimeContext) : List String :=
  [pjoin ctx.targetDir "AGENTS.md",
   pjoin (pjoin ctx.docsDir "design-docs") "index.md",
   ctx.archMdPath,
   ctx.goldenPath]

theorem scoreRepositoryAgents_ok (fs : FsNode) (ctx : AuditRuntimeContext) (r : AuditResult)
    (hre : existsSync fs (pjoin ctx.targetDir "AGENTS.md") = true →
      (readFileSyncE fs (pjoin ctx.targetDir "AGENTS.md")).isOk = true) :
    (scoreRepositoryAgents fs ctx r).isOk = true := by
  unfold scoreRepositoryAgents
  dsimp only
  split
  next e heq =>
    exfalso
    repeat' split at heq
    all_goals simp_all [Except.isOk, Except.toBool]
  next r1 heq =>
    split <;> simp [Except.isOk, Except.toBool]

theorem scoreRepositoryDocs_ok (fs : FsNode) (ctx : AuditRuntimeContext) (r : AuditResult)
    (hre : existsSync fs (pjoin (pjoin ctx.docsDir "design-docs") "index.md") = true →
      (readFileSyncE fs (pjoin (pjoin ctx.docsDir "design-docs") "index.md")).isOk = true) :
    (scoreRepositoryDocs fs ctx r).isOk = true := by
  unfold scoreRepositoryDocs
  dsimp only
  repeat' split
  all_goals simp_all [Except.isOk, Except.toBool, existsSync]

theorem scoreRepositoryKnowledge_ok (fs : FsNode) (ctx : AuditRuntimeContext) (r : AuditResult)
    (h1 : existsSync fs (pjoin ctx.targetDir "AGENTS.md") = true →
      (readFileSyncE fs (pjoin ctx.targetDir "AGENTS.md")).isOk = true)
    (h2 : existsSync fs (pjoin (pjoin ctx.docsDir "design-docs") "index.md") = true →
      (readFileSyncE fs (pjoin (pjoin ctx.docsDir "design-docs") "index.md")).isOk = true) :
    (scoreRepositoryKnowledge fs ctx r).isOk = true := by
  unfold scoreRepositoryKnowledge
  split
  next e heq =>
    have := scoreRepositoryAgents_ok fs ctx r h1
    rw [heq] at this
    simp [Except.isOk, Except.toBool] at this
  next r1 heq =>
    split
    next e heq2 =>
      have := scoreRepositoryDocs_ok fs ctx r1 h2
      rw [heq2] at this
      simp [Except.isOk, Except.toBool] at this
    next r2 heq2 => simp [Except.isOk, Except.toBool]

theorem scoreArchitectureEnforcement_ok (fs : FsNode) (ctx : AuditRuntimeContext)
    (r : AuditResult)
    (h1 : existsSync fs ctx.archMdPath = true → (readFileSyncE fs ctx.archMdPath).isOk = true)
    (h2 : existsSync fs ctx.goldenPath = true → (readFileSyncE fs ctx.goldenPath).isOk = true) :
    (scoreArchitectureEnforcement fs ctx r).isOk = true := by
  unfold scoreArchitectureEnforcement
  dsimp only
  split
  next e heq =>
    exfalso
    repeat' split at heq
    all_goals simp_all [Except.isOk, Except.toBool]
  next r1 heq =>
    repeat' split
    all_goals try (rename_i hg; repeat' split at hg)
    all_goals simp_all [Except.isOk, Except.toBool]

theorem scoreGoldenPrinciples_ok (fs : FsNode) (ctx : AuditRuntimeContext) (r : AuditResult)
    (h2 : existsSync fs ctx.goldenPath = true → (readFileSyncE fs ctx.goldenPath).isOk = true) :
    (scoreGoldenPrinciples fs ctx r).isOk = true := by
  unfold scoreGoldenPrinciples
  dsimp only
  split
  next e heq =>
    exfalso
    repeat' split at heq
    all_goals simp_all [Except.isOk, Except.toBool]
  next r1 heq =>
    repeat' split
    all_goals simp_all [Except.isOk, Except.toBool]

theorem hasActiveDocGardening_ok (fs : FsNode) (ctx : AuditRuntimeContext)
    (hre : existsSync fs (pjoin (pjoin (pjoin ctx.targetDir "docs") "design-docs") "index.md") = true →
      (readFileSyncE fs (pjoin (pjoin (pjoin ctx.targetDir "docs") "design-docs") "index.md")).isOk = true) :
    (hasActiveDocGardening fs ctx).isOk = true := by
  unfold hasActiveDocGardening
  dsimp only
  repeat' split
  all_goals try (rename_i hg; repeat' split at hg)
  all_goals simp_all [Except.isOk, Except.toBool]

theorem hasQualityGrades_ok (fs : FsNode) (ctx : AuditRuntimeContext)
    (hre : existsSync fs ctx.archMdPath = true →
      (readFileSyncE fs ctx.archMdPath).isOk = true) :
    (hasQualityGrades fs ctx).isOk = true := by
  unfold hasQualityGrades
  repeat' split
  all_goals simp_all [Except.isOk, Except.toBool]

theorem scoreGarbageCollection_ok (fs : FsNode) (ctx : AuditRuntimeContext) (r : AuditResult)
    (h1 : existsSync fs (pjoin (pjoin (pjoin ctx.targetDir "docs") "design-docs") "index.md") = true →
      (readFileSyncE fs (pjoin (pjoin (pjoin ctx.targetDir "docs") "design-docs") "index.md")).isOk = true)
    (h2 : existsSync fs ctx.archMdPath = true →
      (readFileSyncE fs ctx.archMdPath).isOk = true) :
    (scoreGarbageCollection fs ctx r).isOk = true := by
  unfold scoreGarbageCollection
  dsimp only
  split
  next e heq =>
    have := hasActiveDocGardening_ok fs ctx h1
    rw [heq] at this
    simp [Except.isOk, Except.toBool] at this
  next g heq =>
    split
    next e heq2 =>
      have := hasQualityGrades_ok fs ctx h2
      rw [heq2] at this
      simp [Except.isOk, Except.toBool] at this
    next q heq2 =>
      repeat' split
      all_goals simp [Except.isOk, Except.toBool]

theorem applyAuditScoring_ok (fs : FsNode) (ctx : AuditRuntimeContext) (r : AuditResult)
    (h1 : existsSync fs (pjoin ctx.targetDir "AGENTS.md") = true →
      (readFileSyncE fs (pjoin ctx.targetDir "AGENTS.md")).isOk = true)
    (h2 : existsSync fs (pjoin (pjoin ctx.docsDir "design-docs") "index.md") = true →
      (readFileSyncE fs (pjoin (pjoin ctx.docsDir "design-docs") "index.md")).isOk = true)
    (h3 : existsSync fs ctx.archMdPath = true →
      (readFileSyncE fs ctx.archMdPath).isOk = true)
    (h4 : existsSync fs ctx.goldenPath = true →
      (readFileSyncE fs ctx.goldenPath).isOk = true)
    (h5 : existsSync fs (pjoin (pjoin (pjoin ctx.targetDir "docs") "design-docs") "index.md") = true →
      (readFileSyncE fs (pjoin (pjoin (pjoin ctx.targetDir "docs") "design-docs") "index.md")).isOk = true) :
    (applyAuditScoring fs ctx r).isOk = true := by
  unfold applyAuditScoring
  split
  next e heq =>
    have := scoreRepositoryKnowledge_ok fs ctx r h1 h2
    rw [heq] at this
    simp [Except.isOk, Except.toBool] at this
  next r1 heq =>
    split
    next e heq2 =>
      have := scoreArchitectureEnforcement_ok fs ctx r1 h3 h4
      rw [heq2] at this
      simp [Except.isOk, Except.toBool] at this
    next r2 heq2 =>
      dsimp only
      split
      next e heq3 =>
        have := scoreGoldenPrinciples_ok fs ctx (scoreAgentLegibility fs ctx r2) h4
        rw [heq3] at this
        simp [Except.isOk, Except.toBool] at this
      next r3 heq3 =>
        exact scoreGarbageCollection_ok fs ctx (scoreAgentWorkflow fs ctx r3) h5 h3

/-- A target directory that exists but whose `AGENTS.md` exists and is
unreadable (permission failure on read). -/
def unreadableFsW : FsNode :=
  .dir true [("t", .dir true [("AGENTS.md", .file false "x")])]

/-- C8 counterexample: `runAudit` can raise even though the target path
exists — an existing but unreadable `AGENTS.md` propagates a read error
instead of degrading, refuting "raises if and only if the target path
does not exist / scorers never throw". -/
theorem runAudit_unreadable_error_counterexample :
    existsSync unreadableFsW "t" = true ∧
    (runAudit unreadableFsW "t" "now").isOk = false := by
  constructor
  · decide
  · rfl

/-- C8 (amended): provided every existing file at the four bare-probed
paths (map file, design-doc index, architecture doc, taste-rules doc) is
readable, `runAudit` raises an error if and only if the target path does
not exist; all other missing or malformed inputs degrade per-signal. -/
theorem runAudit_error_iff_missing_target (fs : FsNode) (targetPath now : String)
    (hreads : ∀ p ∈ probedPaths (buildAuditRuntimeContext fs targetPath),
      existsSync fs p = true → (readFileSyncE fs p).isOk = true) :
    ((runAudit fs targetPath now).isOk = false ↔ existsSync fs targetPath = false) := by
  simp only [probedPaths, List.mem_cons, List.not_mem_nil, or_false, forall_eq_or_imp,
    forall_eq] at hreads
  obtain ⟨hA, hI, hArch, hG⟩ := hreads
  constructor
  · intro hfail
    by_contra hne
    have hT : existsSync fs targetPath = true := by
      cases h : existsSync fs targetPath
      · exact absurd h hne
      · rfl
    have hok : (runAudit fs targetPath now).isOk = true := by
      unfold runAudit
      dsimp only
      rw [hT]
      simp only [Bool.not_true, Bool.false_eq_true, if_false]
      split
      next e heq =>
        have := applyAuditScoring_ok fs (buildAuditRuntimeContext fs targetPath)
          (createAuditResult (basename targetPath) now) hA hI hArch hG hI
        rw [heq] at this
        simp [Except.isOk, Except.toBool] at this
      next r2 heq => rfl
    rw [hok] at hfail
    exact Bool.noConfusion hfail
  · intro hmiss
    unfold runAudit
    dsimp only
    rw [hmiss]
    rfl

/-- Witness for the amended C8 on the empty directory. -/
theorem runAudit_error_iff_missing_target_witness :
    ((runAudit auditFsW "t" "now").isOk = false ↔ existsSync auditFsW "t" = false) :=
  runAudit_error_iff_missing_target auditFsW "t" "now" (by decide)

/-- The monorepo tree of C6: a root manifest and two workspace manifests
(contents abstract). -/
def monoFs (rootContent wsContentA wsContentB : String) : FsNode :=
  .dir true [("t", .dir true
    [("package.json", .file true rootContent),
     ("packages", .dir true
       [("a", .dir true [("package.json", .file true wsContentA)]),
        ("b", .dir true [("package.json", .file true wsContentB)])])])]

/-- C6: in a monorepo whose two readable workspace manifests carry 2
dependencies each, the dependency-footprint sub-check awards +1 with the
"lean" finding (rounded average 2 < 30), independently of what the root
manifest declares as dependencies (`rootPkg` is arbitrary beyond its
`workspaces` field). -/
theorem monorepo_dependency_footprint_lean
    (rootContent wsContentA wsContentB : String) (rootPkg pkgA pkgB : Json)
    (hroot : jsonParse rootContent = some rootPkg)
    (hws : jsGet rootPkg "workspaces" =
      some (Json.arr [Json.str "packages/a", Json.str "packages/b"]))
    (hA : jsonParse wsContentA = some pkgA)
    (hdA : jsKeysCount ((jsGet pkgA "dependencies").getD Json.null) = 2)
    (hB : jsonParse wsContentB = some pkgB)
    (hdB : jsKeysCount ((jsGet pkgB "dependencies").getD Json.null) = 2)
    (r : AuditResult) :
    (scoreDependencyFootprint (monoFs rootContent wsContentA wsContentB)
        (buildAuditRuntimeContext (monoFs rootContent wsContentA wsContentB) "t") r).scores.agent_legibility.score
        = r.scores.agent_legibility.score + 1 ∧
    (scoreDependencyFootprint (monoFs rootContent wsContentA wsContentB)
        (buildAuditRuntimeContext (monoFs rootContent wsContentA wsContentB) "t") r).scores.agent_legibility.findings
        = r.scores.agent_legibility.findings ++
          ["Lean workspace dependencies (avg 2 across 2 packages)"] := by
  set fs := monoFs rootContent wsContentA wsContentB with hfs
  set ctx := buildAuditRuntimeContext fs "t" with hctx
  have hread : readFileSyncE fs (pjoin "t" "package.json") = .ok rootContent := rfl
  have hdet : detectMonorepoWorkspaces fs (pjoin "t" "package.json") =
      ["packages/a", "packages/b"] := by
    unfold detectMonorepoWorkspaces
    rw [hread]
    dsimp only
    rw [hroot]
    dsimp only
    rw [hws]
    rfl
  have hpkg : ctx.pkgJsonPath = pjoin "t" "package.json" := rfl
  have htgt : ctx.targetDir = "t" := rfl
  have hmono : ctx.isMonorepo = true := by
    show (!(if existsSync fs (pjoin "t" "package.json") = true then
        detectMonorepoWorkspaces fs (pjoin "t" "package.json") else []).isEmpty) = true
    rw [show existsSync fs (pjoin "t" "package.json") = true from rfl]
    rw [if_pos rfl, hdet]
    rfl
  unfold scoreDependencyFootprint
  rw [hpkg]
  rw [show existsSync fs (pjoin "t" "package.json") = true from rfl]
  rw [hmono]
  simp only [Bool.not_true, Bool.false_eq_true, if_false, if_pos rfl]
  unfold scoreMonorepoDependencyFootprint
  rw [htgt, hpkg]
  rw [show (findFiles fs "t" (fun e => e == "package.json") 3).filter
      (fun file => file ≠ pjoin "t" "package.json" && !strContainsSub file "node_modules")
    = ["t/packages/a/package.json", "t/packages/b/package.json"] from rfl]
  simp only [List.isEmpty_cons, List.foldl_cons, List.foldl_nil]
  rw [show readFileSyncE fs "t/packages/a/package.json" = Except.ok wsContentA from rfl]
  dsimp only
  rw [hA]
  dsimp only
  rw [hdA]
  rw [show readFileSyncE fs "t/packages/b/package.json" = Except.ok wsContentB from rfl]
  dsimp only
  rw [hB]
  dsimp only
  rw [hdB]
  norm_num [mathRound]
  constructor
  · simp [AuditResult.updAL, AuditScore.addPoint, AuditScore.addFinding]
  · simp only [AuditResult.updAL, AuditScore.addPoint, AuditScore.addFinding]
    rfl

/-- The witness root manifest: a monorepo with two workspaces and four
root dependencies. -/
def rootJsonW : String :=
  "\x7b\"workspaces\":[\"packages/a\",\"packages/b\"],\"dependencies\":\x7b\"r1\":\"1\",\"r2\":\"1\",\"r3\":\"1\",\"r4\":\"1\"\x7d\x7d"

/-- The witness workspace manifest: two dependencies. -/
def wsJsonW : String := "\x7b\"dependencies\":\x7b\"a\":\"1\",\"b\":\"2\"\x7d\x7d"

/-- The parsed witness root manifest. -/
def rootPkgW : Json :=
  .obj [("workspaces", .arr [.str "packages/a", .str "packages/b"]),
        ("dependencies", .obj [("r1", .str "1"), ("r2", .str "1"),
                               ("r3", .str "1"), ("r4", .str "1")])]

/-- The parsed witness workspace manifest. -/
def wsPkgW : Json := .obj [("dependencies", .obj [("a", .str "1"), ("b", .str "2")])]

/-- Witness for C6 on concrete manifests. -/
theorem monorepo_dependency_footprint_lean_witness :
    jsonParse rootJsonW = some rootPkgW ∧
    jsonParse wsJsonW = some wsPkgW ∧
    (scoreDependencyFootprint (monoFs rootJsonW wsJsonW wsJsonW)
        (buildAuditRuntimeContext (monoFs rootJsonW wsJsonW wsJsonW) "t")
        (createAuditResult "t" "now")).scores.agent_legibility.score =
      (createAuditResult "t" "now").scores.agent_legibility.score + 1 :=
  ⟨rfl, rfl,
   (monorepo_dependency_footprint_lean rootJsonW wsJsonW wsJsonW rootPkgW wsPkgW wsPkgW
     rfl rfl rfl rfl rfl rfl (createAuditResult "t" "now")).1⟩

/-- Is the path a directory of the tree? -/
def isDirAt (fs : FsNode) (p : String) : Bool :=
  match lookupPath fs p with
  | some (.dir _ _) => true
  | _ => false

/-- The deep tree of the C3 counterexample. -/
def deepFsW : FsNode :=
  .dir true [("t", .dir true [("a", .dir true [("f.md", .file true "x")])])]

/-- C3 counterexample: with `maxDepth = 0` the walk reads only the root —
the non-ignored directory `t/a` is never traversed, refuting "findFiles
traverses every non-ignored directory regardless of the depth bound". -/
theorem findFiles_traversal_counterexample :
    IGNORED_DIRS.contains "a" = false ∧
    existsSync deepFsW "t/a" = true ∧
    isDirAt deepFsW "t/a" = true ∧
    findFilesVisited deepFsW "t" 0 = ["t"] ∧
    ¬ ("t/a" ∈ findFilesVisited deepFsW "t" 0) := by decide

theorem flatMap_congr_mem {a b : Type} {l : List a} {f g : a → List b}
    (h : ∀ x ∈ l, f x = g x) : l.flatMap f = l.flatMap g := by
  induction l with
  | nil => rfl
  | cons hd tl ih =>
    simp only [List.flatMap_cons]
    rw [h hd (by simp), ih (fun x hx => h x (by simp [hx]))]

theorem findFilesSpec_nil_of_depth (pattern : String → Bool) (maxDepth : Nat) :
    (∀ (node : FsNode) (cur : String) (depth : Nat), maxDepth < depth →
      findFilesSpecWalk pattern maxDepth node cur depth = []) ∧
    (∀ (l : List (String × FsNode)) (cur : String) (depth : Nat), maxDepth < depth →
      findFilesSpecEntries pattern maxDepth l cur depth = []) := by
  refine findFilesSpecWalk.mutual_induct pattern maxDepth
    (fun node cur depth => maxDepth < depth →
      findFilesSpecWalk pattern maxDepth node cur depth = [])
    (fun l cur depth => maxDepth < depth →
      findFilesSpecEntries pattern maxDepth l cur depth = [])
    ?_ ?_ ?_ ?_
  · intro cur depth entries ih h
    rw [findFilesSpecWalk.eq_def]
    exact ih h
  · intro node cur depth hne _
    rw [findFilesSpecWalk.eq_def]
    cases node with
    | file rd c => rfl
    | dir rd entries =>
      cases rd with
      | false => rfl
      | true => exact absurd rfl (hne entries)
  · intro cur depth _
    rw [findFilesSpecEntries.eq_def]
  · intro entry child rest cur depth mchild ih h
    rw [findFilesSpecEntries.eq_def]
    dsimp only
    rw [ih h]
    simp only [List.append_nil]
    split
    · rfl
    · split
      next rd entries => exact mchild (by omega)
      next rd c =>
        have hno : ¬ (depth ≤ maxDepth) := by omega
        simp [hno]

theorem findFilesSpecEntries_eq_flatMap (pattern : String → Bool) (maxDepth : Nat)
    (l : List (String × FsNode)) (cur : String) (depth : Nat) :
    findFilesSpecEntries pattern maxDepth l cur depth =
    l.flatMap (fun ec =>
      if IGNORED_DIRS.contains ec.1 then []
      else
        match ec.2 with
        | .dir rd entries =>
          findFilesSpecWalk pattern maxDepth (.dir rd entries) (pjoin cur ec.1) (depth + 1)
        | .file _ _ =>
          if depth ≤ maxDepth && pattern ec.1 then [pjoin cur ec.1] else []) := by
  induction l with
  | nil => rw [findFilesSpecEntries.eq_def]; rfl
  | cons hd tl ih =>
    obtain ⟨entry, child⟩ := hd
    rw [findFilesSpecEntries.eq_def]
    dsimp only
    simp only [List.flatMap_cons]
    rw [ih]

theorem findFilesWalk_eq_spec (pattern : String → Bool) (maxDepth : Nat) :
    ∀ (fuel depth : Nat), maxDepth + 1 ≤ depth + fuel →
    ∀ (node : FsNode) (cur : String),
      findFilesWalk pattern maxDepth fuel node cur depth =
        findFilesSpecWalk pattern maxDepth node cur depth := by
  intro fuel
  induction fuel with
  | zero =>
    intro depth h node cur
    rw [(findFilesSpec_nil_of_depth pattern maxDepth).1 node cur depth (by omega)]
    rfl
  | succ fuel ih =>
    intro depth h node cur
    by_cases hd : depth > maxDepth
    · rw [(findFilesSpec_nil_of_depth pattern maxDepth).1 node cur depth (by omega)]
      unfold findFilesWalk
      simp [hd]
    · unfold findFilesWalk
      simp only [if_neg hd]
      cases node with
      | file rd c =>
        rw [findFilesSpecWalk.eq_def]
        rfl
      | dir rd entries =>
        cases rd with
        | false =>
          rw [findFilesSpecWalk.eq_def]
          rfl
        | true =>
          rw [findFilesSpecWalk.eq_def]
          dsimp only
          rw [findFilesSpecEntries_eq_flatMap]
          show (FsNode.dir true entries).readEntries.flatMap _ = _
          refine flatMap_congr_mem ?_
          intro ec _
          unfold collectFileMatch
          split
          · rfl
          · split
            all_goals try rfl
            all_goals dsimp only
            all_goals exact ih (depth + 1) (by omega) _ _

/-- C3 (amended): the depth bound stops the traversal itself — the walk
returns as soon as `depth > maxDepth`, so directories beyond the bound
are not read (see the counterexample) — but the list of matches returned
is exactly the one the spec's traverse-always/bound-at-match semantics
produces, because any file found beyond the bound would be excluded by
the match-step guard anyway. -/
theorem findFiles_eq_spec_semantics (fs : FsNode) (dir : String) (pattern : String → Bool)
    (maxDepth : Nat) :
    findFiles fs dir pattern maxDepth = findFilesSpec fs dir pattern maxDepth := by
  unfold findFiles findFilesSpec
  cases lookupPath fs dir with
  | none => rfl
  | some node =>
    exact findFilesWalk_eq_spec pattern maxDepth (maxDepth + 2) 0 (by omega) node dir

theorem lookup_setEntry (s name : String) (node : FsNode) :
    ∀ entries : List (String × FsNode),
      (setEntry entries s node).lookup name =
        if name = s then some node else entries.lookup name := by
  intro entries
  induction entries with
  | nil =>
    by_cases h : name = s
    · subst h
      simp [setEntry, List.lookup]
    · have hb : (name == s) = false := beq_eq_false_iff_ne.mpr h
      simp [setEntry, List.lookup, hb, h]
  | cons hd tl ih =>
    obtain ⟨n, c⟩ := hd
    by_cases hns : n = s
    · subst hns
      by_cases hn : name = n
      · subst hn
        simp [setEntry, List.lookup]
      · have hb : (name == n) = false := beq_eq_false_iff_ne.mpr hn
        simp [setEntry, List.lookup, hb, hn]
    · by_cases hn : name = n
      · subst hn
        have hnams : ¬ (name = s) := hns
        simp [setEntry, List.lookup, hns, hnams]
      · have hb : (name == n) = false := beq_eq_false_iff_ne.mpr hn
        simp [setEntry, List.lookup, hns, hn, hb, ih]

theorem mkdirSegs_preserves :
    ∀ (segs : List String) (n n2 : FsNode), mkdirSegs segs n = some n2 →
    ∀ qs, (lookupSegs qs n).isSome = true → (lookupSegs qs n2).isSome = true := by
  intro segs
  induction segs with
  | nil =>
    intro n n2 h qs hq
    unfold mkdirSegs at h
    simp only [Option.some.injEq] at h
    subst h
    exact hq
  | cons s rest ih =>
    intro n n2 h qs hq
    cases n with
    | file rd c => exact absurd h (by unfold mkdirSegs; simp)
    | dir rd entries =>
      unfold mkdirSegs at h
      cases hl : entries.lookup s with
      | some child =>
        rw [hl] at h
        dsimp only at h
        cases hm : mkdirSegs rest child with
        | none => rw [hm] at h; exact absurd h (by simp)
        | some child2 =>
          rw [hm] at h
          simp only [Option.some.injEq] at h
          subst h
          cases qs with
          | nil => rfl
          | cons q qrest =>
            unfold lookupSegs at hq ⊢
            rw [lookup_setEntry]
            by_cases hqs : q = s
            · subst hqs
              rw [hl] at hq
              simp only [if_pos rfl]
              exact ih child child2 hm qrest hq
            · rw [if_neg hqs]
              exact hq
      | none =>
        rw [hl] at h
        dsimp only at h
        cases hm : mkdirSegs rest (.dir true []) with
        | none => rw [hm] at h; exact absurd h (by simp)
        | some child2 =>
          rw [hm] at h
          simp only [Option.some.injEq] at h
          subst h
          cases qs with
          | nil => rfl
          | cons q qrest =>
            unfold lookupSegs at hq ⊢
            rw [lookup_setEntry]
            by_cases hqs : q = s
            · subst hqs
              rw [hl] at hq
              simp at hq
            · rw [if_neg hqs]
              exact hq

theorem mkdirSegs_creates :
    ∀ (segs : List String) (n n2 : FsNode), mkdirSegs segs n = some n2 →
      (lookupSegs segs n2).isSome = true := by
  intro segs
  induction segs with
  | nil =>
    intro n n2 h
    rfl
  | cons s rest ih =>
    intro n n2 h
    cases n with
    | file rd c => exact absurd h (by unfold mkdirSegs; simp)
    | dir rd entries =>
      unfold mkdirSegs at h
      cases hl : entries.lookup s with
      | some child =>
        rw [hl] at h
        dsimp only at h
        cases hm : mkdirSegs rest child with
        | none => rw [hm] at h; exact absurd h (by simp)
        | some child2 =>
          rw [hm] at h
          simp only [Option.some.injEq] at h
          subst h
          unfold lookupSegs
          rw [lookup_setEntry, if_pos rfl]
          exact ih child child2 hm
      | none =>
        rw [hl] at h
        dsimp only at h
        cases hm : mkdirSegs rest (.dir true []) with
        | none => rw [hm] at h; exact absurd h (by simp)
        | some child2 =>
          rw [hm] at h
          simp only [Option.some.injEq] at h
          subst h
          unfold lookupSegs
          rw [lookup_setEntry, if_pos rfl]
          exact ih _ child2 hm

theorem writeFileSegs_preserves (content : String) :
    ∀ (segs : List String) (n n2 : FsNode), writeFileSegs content segs n = some n2 →
    ∀ qs, (lookupSegs qs n).isSome = true → (lookupSegs qs n2).isSome = true := by
  intro segs
  induction segs with
  | nil =>
    intro n n2 h
    cases n <;> exact absurd h (by unfold writeFileSegs; simp)
  | cons s rest ih =>
    intro n n2 h qs hq
    cases n with
    | file rd c => exact absurd h (by unfold writeFileSegs; simp)
    | dir rd entries =>
      cases rest with
      | nil =>
        unfold writeFileSegs at h
        cases hl : entries.lookup s with
        | some child =>
          rw [hl] at h
          cases child with
          | dir rd2 e2 => exact absurd h (by simp)
          | file rd2 c2 =>
            dsimp only at h
            simp only [Option.some.injEq] at h
            subst h
            cases qs with
            | nil => rfl
            | cons q qrest =>
              unfold lookupSegs at hq ⊢
              rw [lookup_setEntry]
              by_cases hqs : q = s
              · subst hqs
                rw [hl] at hq
                cases qrest with
                | nil =>
                  rw [if_pos rfl]
                  rfl
                | cons q2 q2rest => unfold lookupSegs at hq; simp at hq
              · rw [if_neg hqs]
                exact hq
        | none =>
          rw [hl] at h
          dsimp only at h
          simp only [Option.some.injEq] at h
          subst h
          cases qs with
          | nil => rfl
          | cons q qrest =>
            unfold lookupSegs at hq ⊢
            rw [lookup_setEntry]
            by_cases hqs : q = s
            · subst hqs
              rw [hl] at hq
              simp at hq
            · rw [if_neg hqs]
              exact hq
      | cons s2 rest2 =>
        unfold writeFileSegs at h
        cases hl : entries.lookup s with
        | some child =>
          rw [hl] at h
          dsimp only at h
          cases hm : writeFileSegs content (s2 :: rest2) child with
          | none => rw [hm] at h; exact absurd h (by simp)
          | some child2 =>
            rw [hm] at h
            simp only [Option.map_some, Option.some.injEq] at h
            subst h
            cases qs with
            | nil => rfl
            | cons q qrest =>
              unfold lookupSegs at hq ⊢
              rw [lookup_setEntry]
              by_cases hqs : q = s
              · subst hqs
                rw [hl] at hq
                simp only [if_pos rfl]
                exact ih child child2 hm qrest hq
              · rw [if_neg hqs]
                exact hq
        | none =>
          rw [hl] at h
          dsimp only at h
          exact absurd h (by simp)

theorem writeFileSegs_creates (content : String) :
    ∀ (segs : List String) (n n2 : FsNode), writeFileSegs content segs n = some n2 →
      (lookupSegs segs n2).isSome = true := by
  intro segs
  induction segs with
  | nil =>
    intro n n2 h
    cases n <;> exact absurd h (by unfold writeFileSegs; simp)
  | cons s rest ih =>
    intro n n2 h
    cases n with
    | file rd c => exact absurd h (by unfold writeFileSegs; simp)
    | dir rd entries =>
      cases rest with
      | nil =>
        unfold writeFileSegs at h
        cases hl : entries.lookup s with
        | some child =>
          rw [hl] at h
          cases child with
          | dir rd2 e2 => exact absurd h (by simp)
          | file rd2 c2 =>
            dsimp only at h
            simp only [Option.some.injEq] at h
            subst h
            unfold lookupSegs
            rw [lookup_setEntry, if_pos rfl]
            rfl
        | none =>
          rw [hl] at h
          dsimp only at h
          simp only [Option.some.injEq] at h
          subst h
          unfold lookupSegs
          rw [lookup_setEntry, if_pos rfl]
          rfl
      | cons s2 rest2 =>
        unfold writeFileSegs at h
        cases hl : entries.lookup s with
        | some child =>
          rw [hl] at h
          dsimp only at h
          cases hm : writeFileSegs content (s2 :: rest2) child with
          | none => rw [hm] at h; exact absurd h (by simp)
          | some child2 =>
            rw [hm] at h
            simp only [Option.map_some, Option.some.injEq] at h
            subst h
            unfold lookupSegs
            rw [lookup_setEntry, if_pos rfl]
            exact ih child child2 hm
        | none =>
          rw [hl] at h
          dsimp only at h
          exact absurd h (by simp)

theorem mkdirRecursive_preserves {fs fs2 : FsNode} {p : String}
    (h : mkdirRecursive fs p = some fs2) (q : String) (hq : existsSync fs q = true) :
    existsSync fs2 q = true :=
  mkdirSegs_preserves (pathSegs p) fs fs2 h (pathSegs q) hq

theorem mkdirRecursive_creates {fs fs2 : FsNode} {p : String}
    (h : mkdirRecursive fs p = some fs2) : existsSync fs2 p = true :=
  mkdirSegs_creates (pathSegs p) fs fs2 h

theorem writeFileSyncM_preserves {fs fs2 : FsNode} {p content : String}
    (h : writeFileSyncM fs p content = some fs2) (q : String)
    (hq : existsSync fs q = true) : existsSync fs2 q = true :=
  writeFileSegs_preserves content (pathSegs p) fs fs2 h (pathSegs q) hq

theorem writeFileSyncM_creates {fs fs2 : FsNode} {p content : String}
    (h : writeFileSyncM fs p content = some fs2) : existsSync fs2 p = true :=
  writeFileSegs_creates content (pathSegs p) fs fs2 h

theorem createDirsLoop_mono (t : String) :
    ∀ (ds : List String) (fs : FsNode) (c : List String) (fs2 : FsNode) (c2 : List String),
      createDirsLoop t fs ds c = some (fs2, c2) →
      ∀ q, existsSync fs q = true → existsSync fs2 q = true := by
  intro ds
  induction ds with
  | nil =>
    intro fs c fs2 c2 h q hq
    unfold createDirsLoop at h
    simp only [Option.some.injEq, Prod.mk.injEq] at h
    rw [← h.1]
    exact hq
  | cons d rest ih =>
    intro fs c fs2 c2 h q hq
    unfold createDirsLoop at h
    dsimp only at h
    split at h
    · exact ih fs c fs2 c2 h q hq
    · cases hm : mkdirRecursive fs (pjoin t d) with
      | none => rw [hm] at h; exact absurd h (by simp)
      | some fsb =>
        rw [hm] at h
        dsimp only at h
        exact ih fsb _ fs2 c2 h q (mkdirRecursive_preserves hm q hq)

theorem createDirsLoop_ensures (t : String) :
    ∀ (ds : List String) (fs : FsNode) (c : List String) (fs2 : FsNode) (c2 : List String),
      createDirsLoop t fs ds c = some (fs2, c2) →
      ∀ d ∈ ds, existsSync fs2 (pjoin t d) = true := by
  intro ds
  induction ds with
  | nil => intro fs c fs2 c2 h d hd; simp at hd
  | cons d0 rest ih =>
    intro fs c fs2 c2 h d hd
    unfold createDirsLoop at h
    dsimp only at h
    simp only [List.mem_cons] at hd
    split at h
    next hex =>
      rcases hd with hd | hd
      · subst hd
        exact createDirsLoop_mono t rest fs c fs2 c2 h _ hex
      · exact ih fs c fs2 c2 h d hd
    next hex =>
      cases hm : mkdirRecursive fs (pjoin t d0) with
      | none => rw [hm] at h; exact absurd h (by simp)
      | some fsb =>
        rw [hm] at h
        dsimp only at h
        rcases hd with hd | hd
        · subst hd
          exact createDirsLoop_mono t rest fsb _ fs2 c2 h _ (mkdirRecursive_creates hm)
        · exact ih fsb _ fs2 c2 h d hd

theorem createDirsLoop_skips (t : String) :
    ∀ (ds : List String) (fs : FsNode) (c : List String),
      (∀ d ∈ ds, existsSync fs (pjoin t d) = true) →
      createDirsLoop t fs ds c = some (fs, c) := by
  intro ds
  induction ds with
  | nil => intro fs c _; rfl
  | cons d rest ih =>
    intro fs c hall
    unfold createDirsLoop
    dsimp only
    rw [if_pos (hall d (by simp))]
    exact ih fs c (fun d2 hd2 => hall d2 (by simp [hd2]))

theorem createFilesLoop_mono (t : String) :
    ∀ (files : List (String × String)) (fs : FsNode) (c : List String)
      (fs2 : FsNode) (c2 : List String),
      createFilesLoop t false fs files c = some (fs2, c2) →
      ∀ q, existsSync fs q = true → existsSync fs2 q = true := by
  intro files
  induction files with
  | nil =>
    intro fs c fs2 c2 h q hq
    unfold createFilesLoop at h
    simp only [Option.some.injEq, Prod.mk.injEq] at h
    rw [← h.1]
    exact hq
  | cons pc rest ih =>
    obtain ⟨path, content⟩ := pc
    intro fs c fs2 c2 h q hq
    unfold createFilesLoop at h
    dsimp only at h
    split at h
    · exact ih fs c fs2 c2 h q hq
    · cases hm : writeFileSyncM fs (pjoin t path) content with
      | none => rw [hm] at h; exact absurd h (by simp)
      | some fsb =>
        rw [hm] at h
        dsimp only at h
        exact ih fsb _ fs2 c2 h q (writeFileSyncM_preserves hm q hq)

theorem createFilesLoop_ensures (t : String) :
    ∀ (files : List (String × String)) (fs : FsNode) (c : List String)
      (fs2 : FsNode) (c2 : List String),
      createFilesLoop t false fs files c = some (fs2, c2) →
      ∀ pc ∈ files, existsSync fs2 (pjoin t pc.1) = true := by
  intro files
  induction files with
  | nil => intro fs c fs2 c2 h pc hpc; simp at hpc
  | cons pc0 rest ih =>
    obtain ⟨path, content⟩ := pc0
    intro fs c fs2 c2 h pc hpc
    unfold createFilesLoop at h
    dsimp only at h
    simp only [List.mem_cons] at hpc
    split at h
    next hex =>
      simp only [Bool.not_false, Bool.and_true] at hex
      rcases hpc with hpc | hpc
      · subst hpc
        exact createFilesLoop_mono t rest fs c fs2 c2 h _ hex
      · exact ih fs c fs2 c2 h pc hpc
    next hex =>
      cases hm : writeFileSyncM fs (pjoin t path) content with
      | none => rw [hm] at h; exact absurd h (by simp)
      | some fsb =>
        rw [hm] at h
        dsimp only at h
        rcases hpc with hpc | hpc
        · subst hpc
          exact createFilesLoop_mono t rest fsb _ fs2 c2 h _ (writeFileSyncM_creates hm)
        · exact ih fsb _ fs2 c2 h pc hpc

theorem createFilesLoop_skips (t : String) :
    ∀ (files : List (String × String)) (fs : FsNode) (c : List String),
      (∀ pc ∈ files, existsSync fs (pjoin t pc.1) = true) →
      createFilesLoop t false fs files c = some (fs, c) := by
  intro files
  induction files with
  | nil => intro fs c _; rfl
  | cons pc rest ih =>
    obtain ⟨path, content⟩ := pc
    intro fs c hall
    unfold createFilesLoop
    dsimp only
    rw [if_pos (by simp [hall (path, content) (by simp)])]
    exact ih fs c (fun pc2 hpc2 => hall pc2 (by simp [hpc2]))

theorem packFilesLoop_mono (t : String) :
    ∀ (files : List (String × String)) (fs : FsNode) (c : List String)
      (fs2 : FsNode) (c2 : List String),
      packFilesLoop t false fs files c = some (fs2, c2) →
      ∀ q, existsSync fs q = true → existsSync fs2 q = true := by
  intro files
  induction files with
  | nil =>
    intro fs c fs2 c2 h q hq
    unfold packFilesLoop at h
    simp only [Option.some.injEq, Prod.mk.injEq] at h
    rw [← h.1]
    exact hq
  | cons pc rest ih =>
    obtain ⟨path, content⟩ := pc
    intro fs c fs2 c2 h q hq
    unfold packFilesLoop at h
    dsimp only at h
    split at h
    · cases hm : writeFileSyncM fs (pjoin t path) content with
      | none => rw [hm] at h; exact absurd h (by simp)
      | some fsb =>
        rw [hm] at h
        dsimp only at h
        exact ih fsb _ fs2 c2 h q (writeFileSyncM_preserves hm q hq)
    · exact ih fs c fs2 c2 h q hq

theorem packFilesLoop_ensures (t : String) :
    ∀ (files : List (String × String)) (fs : FsNode) (c : List String)
      (fs2 : FsNode) (c2 : List String),
      packFilesLoop t false fs files c = some (fs2, c2) →
      ∀ pc ∈ files, existsSync fs2 (pjoin t pc.1) = true := by
  intro files
  induction files with
  | nil => intro fs c fs2 c2 h pc hpc; simp at hpc
  | cons pc0 rest ih =>
    obtain ⟨path, content⟩ := pc0
    intro fs c fs2 c2 h pc hpc
    unfold packFilesLoop at h
    dsimp only at h
    simp only [List.mem_cons] at hpc
    split at h
    next hex =>
      cases hm : writeFileSyncM fs (pjoin t path) content with
      | none => rw [hm] at h; exact absurd h (by simp)
      | some fsb =>
        rw [hm] at h
        dsimp only at h
        rcases hpc with hpc | hpc
        · subst hpc
          exact packFilesLoop_mono t rest fsb _ fs2 c2 h _ (writeFileSyncM_creates hm)
        · exact ih fsb _ fs2 c2 h pc hpc
    next hex =>
      rcases hpc with hpc | hpc
      · subst hpc
        refine packFilesLoop_mono t rest fs c fs2 c2 h _ ?_
        cases hfe : existsSync fs (pjoin t path)
        · exact absurd (by rw [hfe]; rfl) hex
        · rfl
      · exact ih fs c fs2 c2 h pc hpc

theorem packFilesLoop_skips (t : String) :
    ∀ (files : List (String × String)) (fs : FsNode) (c : List String),
      (∀ pc ∈ files, existsSync fs (pjoin t pc.1) = true) →
      packFilesLoop t false fs files c = some (fs, c) := by
  intro files
  induction files with
  | nil => intro fs c _; rfl
  | cons pc rest ih =>
    obtain ⟨path, content⟩ := pc
    intro fs c hall
    unfold packFilesLoop
    dsimp only
    rw [if_neg (by simp [hall (path, content) (by simp)])]
    exact ih fs c (fun pc2 hpc2 => hall pc2 (by simp [hpc2]))

theorem scaffoldAutomationPack_mono {fs fs2 : FsNode} {t pack : String}
    {packFiles : List (String × String)} {c2 : List String}
    (h : scaffoldAutomationPack fs t pack packFiles false = some (fs2, c2)) :
    ∀ q, existsSync fs q = true → existsSync fs2 q = true := by
  unfold scaffoldAutomationPack at h
  split at h
  · simp only [Option.some.injEq, Prod.mk.injEq] at h
    intro q hq
    rw [← h.1]
    exact hq
  · cases hd : createDirsLoop t fs packDirs [] with
    | none => rw [hd] at h; exact absurd h (by simp)
    | some fsc =>
      rw [hd] at h
      dsimp only at h
      intro q hq
      exact packFilesLoop_mono t packFiles fsc.1 fsc.2 fs2 c2 h q
        (createDirsLoop_mono t packDirs fs [] fsc.1 fsc.2 (by rw [hd]) q hq)

theorem scaffoldAutomationPack_idem {fs fs2 : FsNode} {t pack : String}
    {packFiles : List (String × String)} {c2 : List String}
    (h : scaffoldAutomationPack fs t pack packFiles false = some (fs2, c2)) :
    scaffoldAutomationPack fs2 t pack packFiles false = some (fs2, []) := by
  unfold scaffoldAutomationPack at h ⊢
  split at h
  next hp =>
    rw [if_pos hp]
  next hp =>
    rw [if_neg hp]
    cases hd : createDirsLoop t fs packDirs [] with
    | none => rw [hd] at h; exact absurd h (by simp)
    | some fsc =>
      rw [hd] at h
      dsimp only at h
      have hdirs : ∀ d ∈ packDirs, existsSync fs2 (pjoin t d) = true := by
        intro d hdm
        exact packFilesLoop_mono t packFiles fsc.1 fsc.2 fs2 c2 h _
          (createDirsLoop_ensures t packDirs fs [] fsc.1 fsc.2 (by rw [hd]) d hdm)
      rw [createDirsLoop_skips t packDirs fs2 [] hdirs]
      dsimp only
      exact packFilesLoop_skips t packFiles fs2 []
        (packFilesLoop_ensures t packFiles fsc.1 fsc.2 fs2 c2 h)

/-- C7: scaffolding is idempotent without `force` — after one run of the
write phase of `runInit` (base directories, base files, automation pack),
a second run writes to no existing path: the tree is unchanged and
nothing is reported as created. -/
theorem runInitWrites_idempotent (fs fs1 : FsNode) (targetDir : String)
    (baseFiles packFiles : List (String × String)) (selectedPack : String)
    (created1 : List String)
    (h : runInitWrites fs targetDir baseFiles packFiles selectedPack false =
      some (fs1, created1)) :
    runInitWrites fs1 targetDir baseFiles packFiles selectedPack false =
      some (fs1, []) := by
  unfold runInitWrites createBaseDirectories createBaseFiles at h ⊢
  cases hd : createDirsLoop targetDir fs baseDirs [] with
  | none => rw [hd] at h; exact absurd h (by simp)
  | some fsA =>
    rw [hd] at h
    dsimp only at h
    cases hf : createFilesLoop targetDir false fsA.1 baseFiles fsA.2 with
    | none => rw [hf] at h; exact absurd h (by simp)
    | some fsB =>
      rw [hf] at h
      dsimp only at h
      cases hs : scaffoldAutomationPack fsB.1 targetDir selectedPack packFiles false with
      | none => rw [hs] at h; exact absurd h (by simp)
      | some fsC =>
        rw [hs] at h
        dsimp only at h
        simp only [Option.some.injEq, Prod.mk.injEq] at h
        obtain ⟨h1, _h2⟩ := h
        subst h1
        have hdirs : ∀ d ∈ baseDirs, existsSync fsC.1 (pjoin targetDir d) = true := by
          intro d hdm
          refine scaffoldAutomationPack_mono (by rw [hs]) _ ?_
          refine createFilesLoop_mono targetDir baseFiles fsA.1 fsA.2 fsB.1 fsB.2
            (by rw [hf]) _ ?_
          exact createDirsLoop_ensures targetDir baseDirs fs [] fsA.1 fsA.2 (by rw [hd]) d hdm
        have hfiles : ∀ pc ∈ baseFiles, existsSync fsC.1 (pjoin targetDir pc.1) = true := by
          intro pc hpcm
          refine scaffoldAutomationPack_mono (by rw [hs]) _ ?_
          exact createFilesLoop_ensures targetDir baseFiles fsA.1 fsA.2 fsB.1 fsB.2
            (by rw [hf]) pc hpcm
        rw [createDirsLoop_skips targetDir baseDirs fsC.1 [] hdirs]
        dsimp only
        rw [createFilesLoop_skips targetDir baseFiles fsC.1 [] hfiles]
        dsimp only
        rw [scaffoldAutomationPack_idem (by rw [hs])]
        rfl

/-- The empty target of the C7 witness. -/
def initFsW : FsNode := .dir true [("t", .dir true [])]

/-- The materialized base template list of the C7 witness. -/
def baseFilesW : List (String × String) :=
  [("AGENTS.md", "a"), ("ARCHITECTURE.md", "b"), ("risk-policy.json", "c"),
   ("docs/golden-principles.md", "d"), ("docs/design-docs/index.md", "e"),
   ("docs/design-docs/core-beliefs.md", "f"), ("docs/product-specs/index.md", "g"),
   ("docs/exec-plans/tech-debt-tracker.md", "h")]

/-- The materialized pack file list of the C7 witness. -/
def packFilesW : List (String × String) :=
  [("scripts/lint-structure.mjs", "p"), (".github/workflows/structural-lint.yml", "q")]

/-- The result of the first witness run. -/
def initResW : FsNode × List String :=
  (runInitWrites initFsW "t" baseFilesW packFilesW "agent-factory" false).getD (initFsW, [])

/-- Witness for C7: a first run on an empty target, then an idempotent
second run. -/
theorem runInitWrites_idempotent_witness :
    runInitWrites initFsW "t" baseFilesW packFilesW "agent-factory" false = some initResW ∧
    runInitWrites initResW.1 "t" baseFilesW packFilesW "agent-factory" false =
      some (initResW.1, []) :=
  ⟨rfl, runInitWrites_idempotent initFsW initResW.1 "t" baseFilesW packFilesW "agent-factory"
    initResW.2 rfl⟩

end Reins

